import Mathlib

/-!
GraphLite `example/PageRankVertex.cc`: the vertex program, its aggregator and
its input formatter

A shallow embedding of `PageRankVertex::compute` (lines 170-276), of
`PageRankVertexAggregator` (lines 140-161) and of
`PageRankVertexInputFormatter` (lines 56-122).

Modelling conventions

* `int64_t` values (vertex ids, role tags, counters) are `Int`.  Every counter
  is incremented at most once per iteration of a loop over the inbound
  messages and the out-edges, so the arithmetic stays far inside the 64-bit
  range; signed overflow (undefined in C++) is not modelled.
* `std::set<int64_t>` is a list kept in strictly increasing order, which is
  the order in which a `std::set` iterator visits the elements.
* `std::map<int64_t, std::set<int64_t>>` is an association list with at most
  one entry per key.  The map is only accessed through `find`, `insert` and
  `operator[]`, never iterated, so the position of an entry is unobservable.
* `OutEdgeIterator` is the list of the targets of the out-edges (with
  multiplicity).
* `MessageIterator* pmsgs`: the calls `done()` and `next()` of the message
  loop run through the pending messages, but line 193,
  `MyMsg* pm = (MyMsg*)pmsgs`, does not read the current message: it makes
  `pm` point at the iterator object.  The class is declared in `GraphLite.h`,
  which is not among the sources, so what `pm->vid`, `pm->neighbor` and
  `pm->type` then hold is a parameter of the model (`MessageIterator.view`),
  not related to the contents of the messages.
* The loop of lines 219-243 erases `*ait` from `in_neighbors` (line 221) and
  its header then increments `ait`, an iterator the erase has invalidated.
  From that increment on the behaviour of the program is undefined.  The
  model follows the program up to that point and records that it was reached
  (`Outcome.undefined`); it says nothing about what happens afterwards.
-/

namespace PageRankVertex

/-- Role tag `#define IN_NEIGHBOR 1`. -/
def IN_NEIGHBOR : Int := 1

/-- Role tag `#define OUT_NEIGHBOR 2`. -/
def OUT_NEIGHBOR : Int := 2

/-- The message record `struct MyMsg`. -/
structure MyMsg where
  vid : Int
  neighbor : Int
  type : Int
deriving DecidableEq, Repr

/-- The vertex value `struct Counter`; the field `in` is spelled `in_`. -/
structure Counter where
  in_ : Int := 0
  out : Int := 0
  through : Int := 0
  cycle : Int := 0
deriving DecidableEq, Repr

/-! ## `std::set<int64_t>` -/

/-- `s.insert(x)` on an ordered set: `x` is put at its place, and the set is
unchanged when it already holds `x`. -/
def setInsert (x : Int) : List Int → List Int
  | [] => [x]
  | y :: ys =>
    if x < y then x :: y :: ys
    else if x = y then y :: ys
    else y :: setInsert x ys

/-- The test `s.find(x) != s.end()`. -/
def setFind (s : List Int) (x : Int) : Bool := s.contains x

/-! ## `std::map<int64_t, std::set<int64_t>>` -/

/-- `m.find(k)`: the set stored under `k`, or `none` for `m.end()`. -/
def mapFind (m : List (Int × List Int)) (k : Int) : Option (List Int) :=
  match m with
  | [] => none
  | (k', s) :: rest => if k' = k then some s else mapFind rest k

/-- `m.insert(make_pair(k, s))`: adds the entry unless the key is present. -/
def mapInsert (m : List (Int × List Int)) (k : Int) (s : List Int) :
    List (Int × List Int) :=
  match mapFind m k with
  | some _ => m
  | none => m ++ [(k, s)]

/-- `m[k]`: the set stored under `k`; an absent key is first inserted with
an empty set.  Returns the set and the map after the access. -/
def mapIndex (m : List (Int × List Int)) (k : Int) :
    List Int × List (Int × List Int) :=
  match mapFind m k with
  | some s => (s, m)
  | none => ([], m ++ [(k, [])])

/-- Overwrites the set stored under an existing key `k` (the write through
the reference that `m[k]` returns). -/
def mapStore (m : List (Int × List Int)) (k : Int) (s : List Int) :
    List (Int × List Int) :=
  match m with
  | [] => []
  | (k', s') :: rest =>
    if k' = k then (k', s) :: rest else (k', s') :: mapStore rest k s

/-- `m[k].insert(x)`. -/
def mapIndexInsert (m : List (Int × List Int)) (k x : Int) :
    List (Int × List Int) :=
  mapStore (mapIndex m k).2 k (setInsert x (mapIndex m k).1)

/-! ## The message loop (lines 192-217) -/

/-- The argument `MessageIterator* pmsgs` of `compute`.  `pending` are the
messages that `done()` and `next()` run through.  `view i` is the record that
`pm = (MyMsg*)pmsgs` (line 193) points at while the iterator stands at the
`i`-th pending message: the iterator object itself, read as a `MyMsg`.  The
layout of the iterator object is declared in `GraphLite.h`, which is not among
the sources, so `view` is a parameter; nothing relates it to `pending`. -/
structure MessageIterator where
  pending : List MyMsg
  view : Nat → MyMsg

/-- The records `*pm` of the successive iterations of the message loop, one
per pending message. -/
def MessageIterator.reads (pmsgs : MessageIterator) : List MyMsg :=
  (List.range pmsgs.pending.length).map pmsgs.view

/-- The four containers declared at lines 171-174. -/
structure Index where
  in_ : List (Int × List Int)
  out : List (Int × List Int)
  vids : List Int
  in_neighbors : List Int
deriving DecidableEq, Repr

/-- One iteration of the message loop (lines 195-216); `pm` is the record the
pointer of line 193 points at. -/
def indexStep (st : Index) (pm : MyMsg) : Index :=
  let in_neighbors := setInsert pm.vid st.in_neighbors
  let vids := setInsert pm.vid st.vids
  if pm.type = IN_NEIGHBOR then
    if (mapFind st.in_ pm.vid).isSome then
      { in_ := mapIndexInsert st.in_ pm.vid pm.neighbor, out := st.out,
        vids := vids, in_neighbors := in_neighbors }
    else
      { in_ := mapInsert st.in_ pm.vid (setInsert pm.neighbor []), out := st.out,
        vids := vids, in_neighbors := in_neighbors }
  else if pm.type = OUT_NEIGHBOR then
    if (mapFind st.out pm.vid).isSome then
      { in_ := st.in_, out := mapIndexInsert st.out pm.vid pm.neighbor,
        vids := vids, in_neighbors := in_neighbors }
    else
      { in_ := st.in_, out := mapInsert st.out pm.vid (setInsert pm.neighbor []),
        vids := vids, in_neighbors := in_neighbors }
  else
    { in_ := st.in_, out := st.out, vids := vids, in_neighbors := in_neighbors }


/-- The iterations of the message loop on the records `reads`, in order, from
empty containers. -/
def indexFold (reads : List MyMsg) : Index :=
  reads.foldl indexStep { in_ := [], out := [], vids := [], in_neighbors := [] }

/-- The message loop of lines 192-217: one iteration per pending message, each
on the record read through `pm`. -/
def buildIndex (pmsgs : MessageIterator) : Index :=
  indexFold pmsgs.reads

/-! ## The pattern loops (lines 219-243) -/

/-- The variables the pattern loops read and write: `counter`, `in`, `out`
(`operator[]` may add an empty entry to a map). -/
structure Detect where
  counter : Counter
  in_ : List (Int × List Int)
  out : List (Int × List Int)
deriving DecidableEq, Repr

/-- The body of the inner loop over `bi` (lines 223-232). -/
def pairStep (ai : Int) (st : Detect) (bi : Int) : Detect :=
  let a := mapIndex st.out ai
  let c1 : Counter :=
    if setFind a.1 bi then
      { st.counter with in_ := st.counter.in_ + 1, out := st.counter.out + 1 }
    else st.counter
  let b := mapIndex a.2 bi
  let c2 : Counter :=
    if setFind b.1 ai then { c1 with in_ := c1.in_ + 1, out := c1.out + 1 }
    else c1
  { counter := c2, in_ := st.in_, out := b.2 }

/-- The body of the loop over the out-edges (lines 236-241). -/
def edgeStep (ai : Int) (st : Detect) (target : Int) : Detect :=
  let a := mapIndex st.out ai
  if setFind a.1 target then
    { counter := { st.counter with through := st.counter.through + 1 },
      in_ := st.in_, out := a.2 }
  else
    let i := mapIndex st.in_ ai
    if setFind i.1 target then
      { counter := { st.counter with cycle := st.counter.cycle + 1 },
        in_ := i.2, out := a.2 }
    else
      { counter := st.counter, in_ := i.2, out := a.2 }

/-- The outer loop over `in_neighbors` (lines 219-243).  When the set is empty
the loop is not entered.  Otherwise the first pass takes the smallest element
`ai`, erases it (line 221), runs the inner loop over the elements that are
left and then the loop over the out-edges; after that the loop header
increments `ait`, which the erase has invalidated, and the behaviour of the
program is undefined.  Returns the variables at the end of the loop or at that
increment, and whether the increment was reached. -/
def detect (edges : List Int) (in_neighbors : List Int) (st : Detect) :
    Detect × Bool :=
  match in_neighbors with
  | [] => (st, false)
  | ai :: rest => (edges.foldl (edgeStep ai) (rest.foldl (pairStep ai) st), true)

/-! ## `compute` -/

/-- What one call of `compute` does: the vertex value after the call, the
values passed to `accumulateAggr(0, ·)`, whether `voteToHalt` was called, the
messages passed to `sendMessageToAllNeighbors` in order, and the messages the
iterator was advanced over.  When `undefined` is true the call has reached the
increment of the invalidated iterator (line 219); the other fields then
record what the call had done up to that point (the stored value is still the
one before the call, nothing was contributed or sent), and nothing is said
about what happens afterwards. -/
structure Outcome where
  value : Counter
  aggr : List Int
  halted : Bool
  sent : List MyMsg
  consumed : List MyMsg
  undefined : Bool := false
deriving DecidableEq, Repr

/-- The messages of lines 260-267: one `OUT_NEIGHBOR` record per out-edge. -/
def outMsgs (vertexId : Int) (edges : List Int) : List MyMsg :=
  edges.map (fun t => { vid := vertexId, neighbor := t, type := OUT_NEIGHBOR })

/-- The messages of lines 269-275: one `IN_NEIGHBOR` record per element of
`vids`. -/
def inMsgs (vertexId : Int) (vids : List Int) : List MyMsg :=
  vids.map (fun v => { vid := vertexId, neighbor := v, type := IN_NEIGHBOR })

/-- The accumulated error of lines 246-249. -/
def delta (old new : Counter) : Int :=
  |old.in_ - new.in_| + |old.out - new.out| + |old.through - new.through|
    + |old.cycle - new.cycle|


/-- `PageRankVertex::compute`.  `superstep` is `getSuperstep()`, `global_val`
is `*getAggrGlobal(0)`, `value` is `getValue()` before the call, `vertexId` is
`getVertexId()`, `edges` are the targets given by `getOutEdgeIterator()` and
`pmsgs` is the message iterator. -/
def compute (superstep : Nat) (global_val : Int) (value : Counter)
    (vertexId : Int) (edges : List Int) (pmsgs : MessageIterator) : Outcome :=
  if superstep = 0 then
    { value := { in_ := 100, out := 100, through := 100, cycle := 100 },
      aggr := [], halted := false,
      sent := outMsgs vertexId edges ++ inMsgs vertexId [],
      consumed := [] }
  else if superstep ≥ 50 ∧ global_val = 0 then
    { value := value, aggr := [], halted := true, sent := [], consumed := [] }
  else
    let idx := buildIndex pmsgs
    let d := detect edges idx.in_neighbors
      { counter := { in_ := 0, out := 0, through := 0, cycle := 0 },
        in_ := idx.in_, out := idx.out }
    if d.2 then
      { value := value, aggr := [], halted := false, sent := [],
        consumed := pmsgs.pending, undefined := true }
    else
      { value := d.1.counter, aggr := [delta value d.1.counter], halted := false,
        sent := outMsgs vertexId edges ++ inMsgs vertexId idx.vids,
        consumed := pmsgs.pending }

/-- Modelled from the spec: `sendMessageToAllNeighbors` is declared in
`GraphLite.h`, which is not among the sources; by section 4.5 it "means
broadcast along every outgoing edge of this vertex".  The deliveries caused by
the messages `sent`: each message reaches the target of every out-edge. -/
def deliveries (edges : List Int) (sent : List MyMsg) : List (Int × MyMsg) :=
  sent.flatMap (fun m => edges.map (fun t => (t, m)))


/-! ## Notions used by the theorems -/

/-- The set a lookup yields: the one stored under `k`, empty for an absent
key. -/
def known (m : List (Int × List Int)) (k : Int) : List Int :=
  (mapFind m k).getD []

/-- What lines 225-232 add to `in` (and to `out`) for the pair `a`, `b`, when
`fo x` is the set the index `out` yields for `x`: one for `b ∈ out[a]`, one
for `a ∈ out[b]`. -/
def pairInc (fo : Int → List Int) (a b : Int) : Int :=
  (if b ∈ fo a then 1 else 0) + (if a ∈ fo b then 1 else 0)

/-- The first branch of lines 236-241 fires for `a` and the edge target `t`. -/
def throughHit (fo : Int → List Int) (p : Int × Int) : Bool :=
  decide (p.2 ∈ fo p.1)

/-- The second branch of lines 236-241 fires for `a` and the edge target `t`. -/
def cycleHit (fi fo : Int → List Int) (p : Int × Int) : Bool :=
  decide (p.2 ∉ fo p.1 ∧ p.2 ∈ fi p.1)

/-- An iterator with no pending message. -/
def noMessages : MessageIterator :=
  { pending := [], view := fun _ => ⟨0, 0, 0⟩ }

/-- A sample of pending messages: 4 and 5 announce out-neighbours and
in-neighbours, 7 sends a record with an unknown role tag. -/
def sampleMsgs : List MyMsg :=
  [⟨5, 3, 2⟩, ⟨4, 5, 2⟩, ⟨4, 2, 1⟩, ⟨5, 4, 2⟩, ⟨5, 2, 1⟩, ⟨7, 7, 9⟩]

/-- An iterator over `sampleMsgs` whose object, read as a `MyMsg`, shows a
fixed first field, the position in the second field and a fixed third
field. -/
def sampleIterator : MessageIterator :=
  { pending := sampleMsgs, view := fun i => ⟨4096, i, 0⟩ }

/-- An iterator over `msgs` whose object, read as a `MyMsg`, shows the record
`r` at every position. -/
def fixedView (msgs : List MyMsg) (r : MyMsg) : MessageIterator :=
  { pending := msgs, view := fun _ => r }

/-- An iterator whose object, read as a `MyMsg`, happens to show the current
message (a zero record when the position is past the end). -/
def showing (msgs : List MyMsg) : MessageIterator :=
  { pending := msgs, view := fun i => msgs.getD i ⟨0, 0, 0⟩ }

/-- The local record `counter` of a compute call on `pmsgs` that has passed
the halt test, at the moment the loop of lines 219-243 is left or its header
increments the erased iterator. -/
def localCounter (edges : List Int) (pmsgs : MessageIterator) : Counter :=
  (detect edges (buildIndex pmsgs).in_neighbors
    { counter := { in_ := 0, out := 0, through := 0, cycle := 0 },
      in_ := (buildIndex pmsgs).in_, out := (buildIndex pmsgs).out }).1.counter

/-! ## The synchronous engine

The engine (`GraphLite.h` and the runtime behind it) is not among the sources.
The definitions below follow the boundary contract of the specification. -/

/-- A vertex as the engine holds it between two supersteps: its id, the
targets of its out-edges, its stored value, whether it is active, and the
messages waiting for it. -/
structure VertexState where
  id : Int
  edges : List Int
  value : Counter
  active : Bool
  inbox : List MyMsg
deriving DecidableEq, Repr

/-- The engine between two supersteps: the number of the superstep to run
next, the global value of aggregator 0 that superstep will read, and the
vertices. -/
structure RunState where
  superstep : Nat
  global : Int
  vertices : List VertexState
deriving DecidableEq, Repr


/-- Modelled from the spec: the engine is not among the sources.  A vertex
takes part in a superstep when it is active or a message waits for it ("a
halted vertex performs no further compute unless the external engine
reactivates it by delivering it a new message"); a vertex that does not take
part stays halted and keeps its value.  `view` is what the iterator object of
this call shows when read as a `MyMsg`. -/
def runVertex (superstep : Nat) (global : Int) (view : Nat → MyMsg)
    (v : VertexState) : Outcome :=
  if v.active || !v.inbox.isEmpty then
    compute superstep global v.value v.id v.edges { pending := v.inbox, view := view }
  else
    { value := v.value, aggr := [], halted := true, sent := [], consumed := [] }

/-- Modelled from the spec: the engine is not among the sources.  One
superstep: every vertex runs once on the messages waiting for it; "every
message sent in superstep s" is delivered "to its target vertex before
superstep s+1 begins", along the out-edges of the sender; the global value of
the next superstep is the sum of the values contributed in this one.  When a
compute call of the superstep reaches undefined behaviour there is no next
state (`none`).  `views id` is the view of the iterator of the vertex `id`. -/
def superstepRun (views : Int → Nat → MyMsg) (st : RunState) : Option RunState :=
  let outs := st.vertices.map
    (fun v => (v, runVertex st.superstep st.global (views v.id) v))
  let mail := outs.flatMap (fun p => deliveries p.1.edges p.2.sent)
  if outs.any (fun p => p.2.undefined) then none
  else
    some
      { superstep := st.superstep + 1,
        global := (outs.flatMap (fun p => p.2.aggr)).sum,
        vertices := outs.map (fun p =>
          { id := p.1.id, edges := p.1.edges, value := p.2.value,
            active := !p.2.halted,
            inbox := (mail.filter (fun d => d.1 = p.1.id)).map Prod.snd }) }

/-- Modelled from the spec: the engine is not among the sources.  The state
before superstep 0 for the graph given as a list of vertices with the targets
of their out-edges: every vertex active, a default-constructed `Counter`, no
message waiting, global value 0 (aggregator `init`). -/
def initial (graph : List (Int × List Int)) : RunState :=
  { superstep := 0, global := 0,
    vertices := graph.map (fun g =>
      { id := g.1, edges := g.2, value := {}, active := true, inbox := [] }) }


/-- Modelled from the spec: the engine is not among the sources.  The state
of the engine after the first `n` supersteps (numbered `0, ..., n - 1`) on
`graph`, or `none` when one of them reached undefined behaviour.
`views s id` is the view of the iterator of the vertex `id` in superstep
`s`. -/
def run (graph : List (Int × List Int)) (views : Nat → Int → Nat → MyMsg) :
    Nat → Option RunState
  | 0 => some (initial graph)
  | n + 1 => (run graph views n).bind (superstepRun (views n))

/-- The messages waiting for the vertex `id` after superstep 0: the
`OUT_NEIGHBOR` announcements of the vertices with an out-edge to `id`, one per
out-edge of the sender and per edge to `id`. -/
def firstInbox (graph : List (Int × List Int)) (id : Int) : List MyMsg :=
  ((graph.flatMap (fun e => deliveries e.2 (outMsgs e.1 e.2))).filter
    (fun d => d.1 = id)).map Prod.snd

/-- The vertices after superstep 0: each stores the sentinel record and has
received the announcements of `firstInbox`. -/
def afterZero (graph : List (Int × List Int)) : List VertexState :=
  graph.map (fun e =>
    { id := e.1, edges := e.2, value := ⟨100, 100, 100, 100⟩, active := true,
      inbox := firstInbox graph e.1 })

/-- The graph with the two vertices `a`, `b` and the edges `a → b`, `b → a`. -/
def twoCycle (a b : Int) : List (Int × List Int) := [(a, [b]), (b, [a])]

/-- The directed cycle `a → b → c → d → a`. -/
def fourCycle (a b c d : Int) : List (Int × List Int) :=
  [(a, [b]), (b, [c]), (c, [d]), (d, [a])]

/-! ## `PageRankVertexAggregator` (lines 140-161) -/

/-- The two fields `m_global`, `m_local` of `Aggregator<int64_t>`. -/
structure Aggregator where
  m_global : Int
  m_local : Int
deriving DecidableEq, Repr

namespace Aggregator

/-- `init()`: both fields are set to 0. -/
def init (_a : Aggregator) : Aggregator := { m_global := 0, m_local := 0 }

/-- `getGlobal()`: the value `&m_global` points to. -/
def getGlobal (a : Aggregator) : Int := a.m_global

/-- `setGlobal(p)`: `m_global = *p`. -/
def setGlobal (a : Aggregator) (p : Int) : Aggregator := { a with m_global := p }

/-- `getLocal()`: the value `&m_local` points to. -/
def getLocal (a : Aggregator) : Int := a.m_local

/-- `merge(p)`: `m_global += *p`. -/
def merge (a : Aggregator) (p : Int) : Aggregator :=
  { a with m_global := a.m_global + p }

/-- `accumulate(p)`: `m_local += *p`. -/
def accumulate (a : Aggregator) (p : Int) : Aggregator :=
  { a with m_local := a.m_local + p }

end Aggregator

/-! ## `PageRankVertexInputFormatter` (lines 56-122) -/

/-- The value of `sizeof(double)`, in bytes. -/
def sizeof_double : Nat := 8

/-- The value of `sizeof(int64_t)`, in bytes. -/
def sizeof_int64_t : Nat := 8

/-- The value of `sizeof(Counter)`: four `int64_t` fields. -/
def sizeof_Counter : Nat := 4 * sizeof_int64_t

/-- The value of `sizeof(MyMsg)`: three `int64_t` fields. -/
def sizeof_MyMsg : Nat := 3 * sizeof_int64_t

/-- `getVertexValueSize()` (lines 70-73): returns `sizeof(double)`. -/
def getVertexValueSize : Nat := sizeof_double

/-- `getEdgeValueSize()` (lines 74-77): returns `sizeof(double)`. -/
def getEdgeValueSize : Nat := sizeof_double

/-- `getMessageValueSize()` (lines 78-81): returns `sizeof(double)`. -/
def getMessageValueSize : Nat := sizeof_double

/-- A call `loadGraph` makes to the engine: `addEdge(from, to, &weight)` or
`addVertex(vid, &value, outdegree)`.  The `double` constants `weight = 0` and
`value = 1` are written as integers; no arithmetic is done on them. -/
inductive Call where
  | addEdge (from_ to_ : Int) (weight : Int)
  | addVertex (vid : Int) (value : Int) (outdegree : Int)
deriving DecidableEq, Repr

/-- The local variables of `loadGraph` and the calls made so far. -/
structure LoadState where
  last_vertex : Int
  outdegree : Int
  calls : List Call
deriving DecidableEq, Repr

/-- The body of the loop of lines 103-119 on the record `(from, to)`. -/
def loadStep (st : LoadState) (r : Int × Int) : LoadState :=
  if st.last_vertex ≠ r.1 then
    { last_vertex := r.1, outdegree := 1,
      calls := st.calls ++
        [Call.addVertex st.last_vertex 1 st.outdegree, Call.addEdge r.1 r.2 0] }
  else
    { last_vertex := st.last_vertex, outdegree := st.outdegree + 1,
      calls := st.calls ++ [Call.addEdge r.1 r.2 0] }

/-- `loadGraph()` (lines 82-121).  `getEdgeLine i` is the record `(from, to)`
that `sscanf` reads from the line the `i`-th call of `getEdgeLine()` returns
(counting from 0); the result is the sequence of the calls of `addEdge` and
`addVertex`, in order. -/
def loadGraph (m_total_edge : Int) (getEdgeLine : Nat → Int × Int) : List Call :=
  if m_total_edge ≤ 0 then []
  else
    let st := ((List.range (m_total_edge.toNat - 1)).map
        (fun i => getEdgeLine (i + 1))).foldl loadStep
      { last_vertex := (getEdgeLine 0).1, outdegree := 1,
        calls := [Call.addEdge (getEdgeLine 0).1 (getEdgeLine 0).2 0] }
    st.calls ++ [Call.addVertex st.last_vertex 1 st.outdegree]

/-- The arguments of the `addEdge` calls, in order. -/
def edgeCalls (cs : List Call) : List (Int × Int × Int) :=
  cs.filterMap (fun c =>
    match c with
    | Call.addEdge f t w => some (f, t, w)
    | Call.addVertex _ _ _ => none)

/-- The arguments of the `addVertex` calls, in order. -/
def vertexCalls (cs : List Call) : List (Int × Int × Int) :=
  cs.filterMap (fun c =>
    match c with
    | Call.addEdge _ _ _ => none
    | Call.addVertex v x d => some (v, x, d))

/-- The sources of the first `n` records. -/
def sources (getEdgeLine : Nat → Int × Int) (n : Nat) : List Int :=
  (List.range n).map (fun i => (getEdgeLine i).1)

/-- A sample edge list: four records, sorted by source. -/
def sampleLines (i : Nat) : Int × Int :=
  [((1 : Int), (2 : Int)), (1, 3), (2, 3), (3, 1)].getD i (0, 0)

/-- The local state of `loadGraph` after the first record and `k` iterations
of the loop of lines 103-119. -/
def loadAfter (getEdgeLine : Nat → Int × Int) (k : Nat) : LoadState :=
  ((List.range k).map (fun i => getEdgeLine (i + 1))).foldl loadStep
    { last_vertex := (getEdgeLine 0).1, outdegree := 1,
      calls := [Call.addEdge (getEdgeLine 0).1 (getEdgeLine 0).2 0] }

/-! ## Facts about the containers -/

theorem mem_setInsert (x y : Int) (s : List Int) :
    y ∈ setInsert x s ↔ y = x ∨ y ∈ s := by
  induction s with
  | nil => simp [setInsert]
  | cons z zs ih =>
    unfold setInsert
    split_ifs with h1 h2
    · simp
    · subst h2; simp
    · simp [ih]; tauto

theorem setInsert_sorted (x : Int) (s : List Int) (hs : s.Pairwise (· < ·)) :
    (setInsert x s).Pairwise (· < ·) := by
  induction s with
  | nil => simp [setInsert]
  | cons z zs ih =>
    unfold setInsert
    split_ifs with h1 h2
    · rw [List.pairwise_cons] at hs ⊢
      refine ⟨?_, List.pairwise_cons.2 hs⟩
      intro a ha
      rcases List.mem_cons.1 ha with rfl | ha
      · exact h1
      · exact lt_trans h1 (hs.1 a ha)
    · exact hs
    · rw [List.pairwise_cons] at hs ⊢
      refine ⟨?_, ih hs.2⟩
      intro a ha
      rcases (mem_setInsert x a zs).1 ha with rfl | ha
      · omega
      · exact hs.1 a ha

theorem setFind_iff (s : List Int) (x : Int) : setFind s x = true ↔ x ∈ s := by
  simp [setFind]

theorem mapFind_append (m m' : List (Int × List Int)) (k : Int) :
    mapFind (m ++ m') k = (mapFind m k).orElse (fun _ => mapFind m' k) := by
  induction m with
  | nil => simp [mapFind]
  | cons p rest ih =>
    obtain ⟨k', s⟩ := p
    simp only [List.cons_append, mapFind]
    split_ifs <;> simp [ih]

theorem mapIndex_fst (m : List (Int × List Int)) (k : Int) :
    (mapIndex m k).1 = known m k := by
  unfold mapIndex known
  cases h : mapFind m k <;> simp

theorem known_mapIndex (m : List (Int × List Int)) (k : Int) :
    known (mapIndex m k).2 = known m := by
  funext k'
  unfold mapIndex known
  cases h : mapFind m k with
  | some s => simp
  | none =>
    simp only [mapFind_append]
    cases h' : mapFind m k' with
    | some s => simp
    | none =>
      simp [mapFind]
      split_ifs <;> simp

theorem mapFind_mapStore (m : List (Int × List Int)) (k k' : Int) (s : List Int) :
    mapFind (mapStore m k s) k' =
      if k' = k then (mapFind m k).map (fun _ => s) else mapFind m k' := by
  induction m with
  | nil => simp [mapStore, mapFind]
  | cons p rest ih =>
    obtain ⟨k0, s0⟩ := p
    unfold mapStore
    by_cases h0 : k0 = k
    · subst h0
      by_cases h1 : k' = k0
      · subst h1; simp [mapFind]
      · have : ¬ k0 = k' := fun h => h1 h.symm
        simp [mapFind, h1, this]
    · by_cases h1 : k' = k
      · subst h1
        simp [mapFind, h0, ih]
      · simp only [h0, if_false, mapFind, ih, h1]

theorem known_mapIndexInsert (m : List (Int × List Int)) (k x k' : Int) :
    known (mapIndexInsert m k x) k' =
      if k' = k then setInsert x (known m k) else known m k' := by
  unfold mapIndexInsert
  rw [mapIndex_fst]
  unfold known
  rw [mapFind_mapStore]
  by_cases h : k' = k
  · subst h
    simp only [if_true]
    unfold mapIndex
    cases h' : mapFind m k' with
    | some s => simp [h']
    | none => simp [mapFind_append, h', mapFind]
  · simp only [h, if_false]
    exact congrFun (known_mapIndex m k) k'

theorem known_mapInsert (m : List (Int × List Int)) (k k' : Int) (s : List Int)
    (h : mapFind m k = none) :
    known (mapInsert m k s) k' = if k' = k then s else known m k' := by
  unfold mapInsert known
  rw [h]
  simp only [mapFind_append]
  by_cases hk : k' = k
  · subst hk; simp [h, mapFind]
  · have : ¬ k = k' := fun e => hk e.symm
    cases h' : mapFind m k' <;> simp [mapFind, hk, this]


/-! ## The message loop -/

theorem indexFold_append (l : List MyMsg) (pm : MyMsg) :
    indexFold (l ++ [pm]) = indexStep (indexFold l) pm := by
  simp [indexFold, List.foldl_append]

theorem indexStep_in_neighbors (st : Index) (pm : MyMsg) :
    (indexStep st pm).in_neighbors = setInsert pm.vid st.in_neighbors := by
  unfold indexStep
  split_ifs <;> rfl

theorem indexStep_vids (st : Index) (pm : MyMsg) :
    (indexStep st pm).vids = setInsert pm.vid st.vids := by
  unfold indexStep
  split_ifs <;> rfl

theorem known_indexStep_in (st : Index) (pm : MyMsg) (k : Int) :
    known (indexStep st pm).in_ k =
      if pm.type = IN_NEIGHBOR ∧ k = pm.vid then setInsert pm.neighbor (known st.in_ k)
      else known st.in_ k := by
  unfold indexStep
  by_cases h1 : pm.type = IN_NEIGHBOR
  · simp only [h1, if_true, true_and]
    cases hf : mapFind st.in_ pm.vid with
    | some s =>
      simp only [Option.isSome_some, if_true, known_mapIndexInsert]
      split_ifs with hk
      · rw [hk]
      · rfl
    | none =>
      simp only [Option.isSome_none, Bool.false_eq_true, if_false]
      rw [known_mapInsert _ _ _ _ hf]
      split_ifs with hk
      · subst hk; simp [known, hf]
      · rfl
  · simp only [h1, if_false, false_and]
    split_ifs <;> rfl

theorem known_indexStep_out (st : Index) (pm : MyMsg) (k : Int) :
    known (indexStep st pm).out k =
      if pm.type = OUT_NEIGHBOR ∧ k = pm.vid then setInsert pm.neighbor (known st.out k)
      else known st.out k := by
  unfold indexStep
  by_cases h1 : pm.type = IN_NEIGHBOR
  · have h2 : ¬ (IN_NEIGHBOR = OUT_NEIGHBOR) := by decide
    simp only [h1, if_true, h2, false_and, if_false]
    split_ifs <;> rfl
  · simp only [h1, if_false]
    by_cases h2 : pm.type = OUT_NEIGHBOR
    · simp only [h2, if_true, true_and]
      cases hf : mapFind st.out pm.vid with
      | some s =>
        simp only [Option.isSome_some, if_true, known_mapIndexInsert]
        split_ifs with hk
        · rw [hk]
        · rfl
      | none =>
        simp only [Option.isSome_none, Bool.false_eq_true, if_false]
        rw [known_mapInsert _ _ _ _ hf]
        split_ifs with hk
        · subst hk; simp [known, hf]
        · rfl
    · simp only [h2, if_false, false_and]

theorem mem_in_neighbors (reads : List MyMsg) (a : Int) :
    a ∈ (indexFold reads).in_neighbors ↔ ∃ m ∈ reads, m.vid = a := by
  induction reads using List.reverseRecOn with
  | nil => simp [indexFold]
  | append_singleton l pm ih =>
    rw [indexFold_append, indexStep_in_neighbors, mem_setInsert, ih]
    simp only [List.mem_append, List.mem_singleton]
    constructor
    · rintro (h | ⟨m, hm, h⟩)
      · exact ⟨pm, Or.inr rfl, h.symm⟩
      · exact ⟨m, Or.inl hm, h⟩
    · rintro ⟨m, hm | hm, h⟩
      · exact Or.inr ⟨m, hm, h⟩
      · subst hm; exact Or.inl h.symm

theorem vids_eq_in_neighbors (reads : List MyMsg) :
    (indexFold reads).vids = (indexFold reads).in_neighbors := by
  induction reads using List.reverseRecOn with
  | nil => simp [indexFold]
  | append_singleton l pm ih =>
    rw [indexFold_append, indexStep_in_neighbors, indexStep_vids, ih]

theorem in_neighbors_sorted (reads : List MyMsg) :
    (indexFold reads).in_neighbors.Pairwise (· < ·) := by
  induction reads using List.reverseRecOn with
  | nil => simp [indexFold]
  | append_singleton l pm ih =>
    rw [indexFold_append, indexStep_in_neighbors]
    exact setInsert_sorted _ _ ih

theorem mem_known_in (reads : List MyMsg) (x n : Int) :
    n ∈ known (indexFold reads).in_ x ↔
      ∃ m ∈ reads, m.vid = x ∧ m.type = IN_NEIGHBOR ∧ m.neighbor = n := by
  induction reads using List.reverseRecOn with
  | nil => simp [indexFold, known, mapFind]
  | append_singleton l pm ih =>
    rw [indexFold_append, known_indexStep_in]
    simp only [List.mem_append, List.mem_singleton]
    split_ifs with h
    · rw [mem_setInsert, ih]
      constructor
      · rintro (e | ⟨m, hm, h'⟩)
        · exact ⟨pm, Or.inr rfl, h.2.symm, h.1, e.symm⟩
        · exact ⟨m, Or.inl hm, h'⟩
      · rintro ⟨m, hm | hm, h'⟩
        · exact Or.inr ⟨m, hm, h'⟩
        · subst hm; exact Or.inl h'.2.2.symm
    · rw [ih]
      constructor
      · rintro ⟨m, hm, h'⟩
        exact ⟨m, Or.inl hm, h'⟩
      · rintro ⟨m, hm | hm, h'⟩
        · exact ⟨m, hm, h'⟩
        · subst hm; exact absurd ⟨h'.2.1, h'.1.symm⟩ h

theorem mem_known_out (reads : List MyMsg) (x n : Int) :
    n ∈ known (indexFold reads).out x ↔
      ∃ m ∈ reads, m.vid = x ∧ m.type = OUT_NEIGHBOR ∧ m.neighbor = n := by
  induction reads using List.reverseRecOn with
  | nil => simp [indexFold, known, mapFind]
  | append_singleton l pm ih =>
    rw [indexFold_append, known_indexStep_out]
    simp only [List.mem_append, List.mem_singleton]
    split_ifs with h
    · rw [mem_setInsert, ih]
      constructor
      · rintro (e | ⟨m, hm, h'⟩)
        · exact ⟨pm, Or.inr rfl, h.2.symm, h.1, e.symm⟩
        · exact ⟨m, Or.inl hm, h'⟩
      · rintro ⟨m, hm | hm, h'⟩
        · exact Or.inr ⟨m, hm, h'⟩
        · subst hm; exact Or.inl h'.2.2.symm
    · rw [ih]
      constructor
      · rintro ⟨m, hm, h'⟩
        exact ⟨m, Or.inl hm, h'⟩
      · rintro ⟨m, hm | hm, h'⟩
        · exact ⟨m, hm, h'⟩
        · subst hm; exact absurd ⟨h'.2.1, h'.1.symm⟩ h

/-! ## The pattern loops -/

theorem pairStep_spec (ai bi : Int) (st : Detect) :
    known (pairStep ai st bi).out = known st.out ∧
    (pairStep ai st bi).in_ = st.in_ ∧
    (pairStep ai st bi).counter.in_ = st.counter.in_ + pairInc (known st.out) ai bi ∧
    (pairStep ai st bi).counter.out = st.counter.out + pairInc (known st.out) ai bi ∧
    (pairStep ai st bi).counter.through = st.counter.through ∧
    (pairStep ai st bi).counter.cycle = st.counter.cycle := by
  have hb : (mapIndex (mapIndex st.out ai).2 bi).1 = known st.out bi := by
    rw [mapIndex_fst, known_mapIndex]
  have ha : (mapIndex st.out ai).1 = known st.out ai := mapIndex_fst _ _
  refine ⟨?_, rfl, ?_, ?_, ?_, ?_⟩
  · simp only [pairStep]
    rw [known_mapIndex, known_mapIndex]
  · simp only [pairStep, ha, hb, setFind_iff, pairInc]
    split_ifs <;> simp
    ring
  · simp only [pairStep, ha, hb, setFind_iff, pairInc]
    split_ifs <;> simp
    ring
  · simp only [pairStep]
    split_ifs <;> rfl
  · simp only [pairStep]
    split_ifs <;> rfl

theorem pairFold_spec (ai : Int) (rest : List Int) (st : Detect) :
    known (rest.foldl (pairStep ai) st).out = known st.out ∧
    (rest.foldl (pairStep ai) st).in_ = st.in_ ∧
    (rest.foldl (pairStep ai) st).counter.in_ =
      st.counter.in_ + (rest.map (pairInc (known st.out) ai)).sum ∧
    (rest.foldl (pairStep ai) st).counter.out =
      st.counter.out + (rest.map (pairInc (known st.out) ai)).sum ∧
    (rest.foldl (pairStep ai) st).counter.through = st.counter.through ∧
    (rest.foldl (pairStep ai) st).counter.cycle = st.counter.cycle := by
  induction rest generalizing st with
  | nil => simp
  | cons b bs ih =>
    obtain ⟨h1, h2, h3, h4, h5, h6⟩ := pairStep_spec ai b st
    obtain ⟨i1, i2, i3, i4, i5, i6⟩ := ih (pairStep ai st b)
    simp only [List.foldl_cons, List.map_cons, List.sum_cons]
    refine ⟨i1.trans h1, i2.trans h2, ?_, ?_, i5.trans h5, i6.trans h6⟩
    · rw [i3, h3, h1]; ring
    · rw [i4, h4, h1]; ring

theorem edgeStep_spec (ai t : Int) (st : Detect) :
    known (edgeStep ai st t).out = known st.out ∧
    known (edgeStep ai st t).in_ = known st.in_ ∧
    (edgeStep ai st t).counter.in_ = st.counter.in_ ∧
    (edgeStep ai st t).counter.out = st.counter.out ∧
    (edgeStep ai st t).counter.through =
      st.counter.through + (if throughHit (known st.out) (ai, t) then 1 else 0) ∧
    (edgeStep ai st t).counter.cycle =
      st.counter.cycle +
        (if cycleHit (known st.in_) (known st.out) (ai, t) then 1 else 0) := by
  have ha : (mapIndex st.out ai).1 = known st.out ai := mapIndex_fst _ _
  have hi : (mapIndex st.in_ ai).1 = known st.in_ ai := mapIndex_fst _ _
  simp only [edgeStep, ha, hi, setFind_iff, throughHit, cycleHit, decide_eq_true_eq]
  by_cases h1 : t ∈ known st.out ai
  · simp [h1, known_mapIndex]
  · by_cases h2 : t ∈ known st.in_ ai
    · simp [h1, h2, known_mapIndex]
    · simp [h1, h2, known_mapIndex]

theorem edgeFold_spec (ai : Int) (edges : List Int) (st : Detect) :
    known (edges.foldl (edgeStep ai) st).out = known st.out ∧
    known (edges.foldl (edgeStep ai) st).in_ = known st.in_ ∧
    (edges.foldl (edgeStep ai) st).counter.in_ = st.counter.in_ ∧
    (edges.foldl (edgeStep ai) st).counter.out = st.counter.out ∧
    (edges.foldl (edgeStep ai) st).counter.through =
      st.counter.through +
        ((edges.map (Prod.mk ai)).countP (throughHit (known st.out)) : Nat) ∧
    (edges.foldl (edgeStep ai) st).counter.cycle =
      st.counter.cycle +
        ((edges.map (Prod.mk ai)).countP (cycleHit (known st.in_) (known st.out)) : Nat) := by
  induction edges generalizing st with
  | nil => simp
  | cons t ts ih =>
    obtain ⟨h1, h2, h3, h4, h5, h6⟩ := edgeStep_spec ai t st
    obtain ⟨i1, i2, i3, i4, i5, i6⟩ := ih (edgeStep ai st t)
    simp only [List.foldl_cons, List.map_cons, List.countP_cons]
    refine ⟨i1.trans h1, i2.trans h2, i3.trans h3, i4.trans h4, ?_, ?_⟩
    · rw [i5, h5, h1]; push_cast; ring
    · rw [i6, h6, h1, h2]; push_cast; ring


theorem sorted_ext (l l' : List Int) (h : l.Pairwise (· < ·)) (h' : l'.Pairwise (· < ·))
    (hm : ∀ x, x ∈ l ↔ x ∈ l') : l = l' := by
  have hn : l.Nodup := h.imp (fun e => ne_of_lt e)
  have hn' : l'.Nodup := h'.imp (fun e => ne_of_lt e)
  exact List.eq_of_perm_of_sorted ((List.perm_ext_iff_of_nodup hn hn').2 hm) h h'

theorem mem_reads (pmsgs : MessageIterator) (r : MyMsg) :
    r ∈ pmsgs.reads ↔ ∃ i, i < pmsgs.pending.length ∧ pmsgs.view i = r := by
  simp only [MessageIterator.reads, List.mem_map, List.mem_range]

theorem length_reads (pmsgs : MessageIterator) :
    pmsgs.reads.length = pmsgs.pending.length := by
  simp only [MessageIterator.reads, List.length_map, List.length_range]

theorem in_neighbors_eq_nil (pmsgs : MessageIterator) :
    (buildIndex pmsgs).in_neighbors = [] ↔ pmsgs.pending = [] := by
  constructor
  · intro h
    by_contra hne
    have hpos : 0 < pmsgs.pending.length := List.length_pos.2 hne
    have hm : (pmsgs.view 0).vid ∈ (buildIndex pmsgs).in_neighbors :=
      (mem_in_neighbors pmsgs.reads _).2
        ⟨pmsgs.view 0, (mem_reads pmsgs _).2 ⟨0, hpos, rfl⟩, rfl⟩
    rw [h] at hm
    exact absurd hm (List.not_mem_nil _)
  · intro h
    simp [buildIndex, MessageIterator.reads, h, indexFold]

theorem detect_nil (edges : List Int) (st : Detect) :
    detect edges [] st = (st, false) := rfl

theorem detect_snd (edges : List Int) (l : List Int) (st : Detect) :
    (detect edges l st).2 = true ↔ l ≠ [] := by
  cases l <;> simp [detect]

/-! ## `compute` -/

theorem compute_halting (s : Nat) (value : Counter) (vertexId : Int)
    (edges : List Int) (pmsgs : MessageIterator) (hs : 50 ≤ s) :
    compute s 0 value vertexId edges pmsgs =
      { value := value, aggr := [], halted := true, sent := [], consumed := [] } := by
  have h0 : ¬ s = 0 := by omega
  have hg : s ≥ 50 ∧ (0 : Int) = 0 := ⟨hs, rfl⟩
  unfold compute
  rw [if_neg h0, if_pos hg]

theorem compute_no_pending (s : Nat) (g : Int) (value : Counter) (vertexId : Int)
    (edges : List Int) (pmsgs : MessageIterator) (hs : 1 ≤ s) (hg : ¬ (s ≥ 50 ∧ g = 0))
    (hp : pmsgs.pending = []) :
    compute s g value vertexId edges pmsgs =
      { value := ⟨0, 0, 0, 0⟩, aggr := [delta value ⟨0, 0, 0, 0⟩], halted := false,
        sent := outMsgs vertexId edges, consumed := [], undefined := false } := by
  have h0 : ¬ s = 0 := by omega
  have hidx : buildIndex pmsgs = { in_ := [], out := [], vids := [], in_neighbors := [] } := by
    simp [buildIndex, MessageIterator.reads, hp, indexFold]
  unfold compute
  rw [if_neg h0, if_neg hg]
  simp [hidx, detect, hp, inMsgs]

theorem compute_pending (s : Nat) (g : Int) (value : Counter) (vertexId : Int)
    (edges : List Int) (pmsgs : MessageIterator) (hs : 1 ≤ s) (hg : ¬ (s ≥ 50 ∧ g = 0))
    (hp : pmsgs.pending ≠ []) :
    compute s g value vertexId edges pmsgs =
      { value := value, aggr := [], halted := false, sent := [],
        consumed := pmsgs.pending, undefined := true } := by
  have h0 : ¬ s = 0 := by omega
  have hd : (detect edges (buildIndex pmsgs).in_neighbors
      { counter := { in_ := 0, out := 0, through := 0, cycle := 0 },
        in_ := (buildIndex pmsgs).in_, out := (buildIndex pmsgs).out }).2 = true :=
    (detect_snd _ _ _).2 (fun h => hp ((in_neighbors_eq_nil pmsgs).1 h))
  unfold compute
  rw [if_neg h0, if_neg hg]
  simp only [hd, if_true]

/-- C3: compute votes to halt exactly when the superstep is at least 50 and
the global aggregator value is 0 (so a zero global value below superstep 50
never halts the vertex), and a call that halts sends no message. -/
theorem compute_halted_iff (superstep : Nat) (global_val : Int) (value : Counter)
    (vertexId : Int) (edges : List Int) (pmsgs : MessageIterator) :
    ((compute superstep global_val value vertexId edges pmsgs).halted = true ↔
      50 ≤ superstep ∧ global_val = 0) ∧
    ((compute superstep global_val value vertexId edges pmsgs).halted = true →
      (compute superstep global_val value vertexId edges pmsgs).sent = [] ∧
      deliveries edges (compute superstep global_val value vertexId edges pmsgs).sent = []) := by
  by_cases h0 : superstep = 0
  · subst h0; simp [compute]
  · by_cases h1 : superstep ≥ 50 ∧ global_val = 0
    · rw [show compute superstep global_val value vertexId edges pmsgs =
          { value := value, aggr := [], halted := true, sent := [], consumed := [] } by
        simp only [compute, if_neg h0, if_pos h1]]
      exact ⟨⟨fun _ => h1, fun _ => rfl⟩, fun _ => ⟨rfl, rfl⟩⟩
    · by_cases hp : pmsgs.pending = []
      · rw [compute_no_pending _ _ _ _ _ _ (by omega) h1 hp]
        exact ⟨⟨fun h => absurd h (by simp), fun h => absurd h h1⟩,
          fun h => absurd h (by simp)⟩
      · rw [compute_pending _ _ _ _ _ _ (by omega) h1 hp]
        exact ⟨⟨fun h => absurd h (by simp), fun h => absurd h h1⟩,
          fun h => absurd h (by simp)⟩

/-- Witness for C3: at superstep 50 with global value 0 the call halts and
sends nothing; at superstep 49 with global value 0 it does not halt. -/
theorem compute_halted_iff_witness :
    (compute 50 0 {} 1 [2, 3] sampleIterator).halted = true ∧
    (compute 50 0 {} 1 [2, 3] sampleIterator).sent = [] ∧
    (compute 49 0 {} 1 [2, 3] sampleIterator).halted = false :=
  ⟨(compute_halted_iff 50 0 {} 1 [2, 3] sampleIterator).1.2 ⟨by decide, rfl⟩,
   ((compute_halted_iff 50 0 {} 1 [2, 3] sampleIterator).2 (by decide)).1,
   by decide⟩

/-- C5: a compute call at superstep 0 stores 100 in each of the four counters,
passes nothing to the aggregator and does not vote to halt, whatever the
stored record, the global value and the pending messages. -/
theorem compute_superstep_zero (global_val : Int) (value : Counter)
    (vertexId : Int) (edges : List Int) (pmsgs : MessageIterator) :
    (compute 0 global_val value vertexId edges pmsgs).value =
      { in_ := 100, out := 100, through := 100, cycle := 100 } ∧
    (compute 0 global_val value vertexId edges pmsgs).aggr = [] ∧
    (compute 0 global_val value vertexId edges pmsgs).halted = false := by
  simp [compute]

theorem length_deliveries (edges : List Int) (sent : List MyMsg) :
    (deliveries edges sent).length = sent.length * edges.length := by
  induction sent with
  | nil => simp [deliveries]
  | cons m ms ih =>
    have hd : deliveries edges (m :: ms) =
        edges.map (fun t => (t, m)) ++ deliveries edges ms := by
      simp [deliveries]
    rw [hd, List.length_append, ih, List.length_map, List.length_cons]
    ring

/-- C6, counterexample: at superstep 0 a vertex with one out-edge, to 2, sends
an `OUT_NEIGHBOR` message, which is delivered to 2. -/
theorem compute_superstep_zero_sends :
    (compute 0 0 {} 1 [2] noMessages).sent ≠ [] ∧
    deliveries [2] (compute 0 0 {} 1 [2] noMessages).sent =
      [(2, ⟨1, 2, OUT_NEIGHBOR⟩)] := by
  decide

/-- C6, amended: a compute call at superstep 0 sends exactly one
`OUT_NEIGHBOR` message per out-edge (origin the vertex, neighbor the target of
the edge), each delivered along every out-edge, and no `IN_NEIGHBOR` message;
it sends no message exactly when the vertex has no out-edge. -/
theorem compute_superstep_zero_sent (global_val : Int) (value : Counter)
    (vertexId : Int) (edges : List Int) (pmsgs : MessageIterator) :
    (compute 0 global_val value vertexId edges pmsgs).sent =
      edges.map (fun t => { vid := vertexId, neighbor := t, type := OUT_NEIGHBOR }) ∧
    (∀ m ∈ (compute 0 global_val value vertexId edges pmsgs).sent,
      m.type ≠ IN_NEIGHBOR) ∧
    (deliveries edges (compute 0 global_val value vertexId edges pmsgs).sent).length =
      edges.length * edges.length ∧
    ((compute 0 global_val value vertexId edges pmsgs).sent = [] ↔ edges = []) := by
  have hsent : (compute 0 global_val value vertexId edges pmsgs).sent =
      edges.map (fun t => { vid := vertexId, neighbor := t, type := OUT_NEIGHBOR }) := by
    simp [compute, outMsgs, inMsgs]
  rw [hsent]
  refine ⟨rfl, ?_, ?_, ?_⟩
  · intro m hm
    obtain ⟨t, -, rfl⟩ := List.mem_map.1 hm
    show OUT_NEIGHBOR ≠ IN_NEIGHBOR
    decide
  · rw [length_deliveries, List.length_map]
  · simp

/-- C20: a compute call at a superstep >= 50 with global value 0 votes to
halt and changes nothing: the stored record is the one stored before the
call, nothing is passed to the aggregator, no pending message is read from the
iterator, and no message is sent. -/
theorem compute_halt_frame (superstep : Nat) (global_val : Int) (value : Counter)
    (vertexId : Int) (edges : List Int) (pmsgs : MessageIterator)
    (hs : 50 ≤ superstep) (hg : global_val = 0) :
    (compute superstep global_val value vertexId edges pmsgs).halted = true ∧
    (compute superstep global_val value vertexId edges pmsgs).value = value ∧
    (compute superstep global_val value vertexId edges pmsgs).aggr = [] ∧
    (compute superstep global_val value vertexId edges pmsgs).consumed = [] ∧
    (compute superstep global_val value vertexId edges pmsgs).sent = [] := by
  subst hg
  rw [compute_halting _ _ _ _ _ hs]
  exact ⟨rfl, rfl, rfl, rfl, rfl⟩

/-- Witness for C20: the call at superstep 50 with global value 0 on
`sampleIterator` keeps the stored record 3, 3, 1, 2. -/
theorem compute_halt_frame_witness :
    (compute 50 0 ⟨3, 3, 1, 2⟩ 1 [2, 3] sampleIterator).value = ⟨3, 3, 1, 2⟩ ∧
    (compute 50 0 ⟨3, 3, 1, 2⟩ 1 [2, 3] sampleIterator).consumed = [] :=
  have h := compute_halt_frame 50 0 ⟨3, 3, 1, 2⟩ 1 [2, 3] sampleIterator (by decide) rfl
  ⟨h.2.1, h.2.2.2.1⟩

/-! ## The pattern loop and the increment of the erased iterator -/

theorem detect_cons_counter (edges : List Int) (a : Int) (rest : List Int) (st : Detect) :
    (detect edges (a :: rest) st).2 = true ∧
    (detect edges (a :: rest) st).1.counter.in_ =
      st.counter.in_ + (rest.map (pairInc (known st.out) a)).sum ∧
    (detect edges (a :: rest) st).1.counter.out =
      st.counter.out + (rest.map (pairInc (known st.out) a)).sum ∧
    (detect edges (a :: rest) st).1.counter.through =
      st.counter.through +
        ((edges.map (Prod.mk a)).countP (throughHit (known st.out)) : Nat) ∧
    (detect edges (a :: rest) st).1.counter.cycle =
      st.counter.cycle +
        ((edges.map (Prod.mk a)).countP (cycleHit (known st.in_) (known st.out)) : Nat) := by
  obtain ⟨p1, p2, p3, p4, p5, p6⟩ := pairFold_spec a rest st
  obtain ⟨-, -, e3, e4, e5, e6⟩ := edgeFold_spec a edges (rest.foldl (pairStep a) st)
  refine ⟨rfl, ?_, ?_, ?_, ?_⟩
  · show (edges.foldl (edgeStep a) (rest.foldl (pairStep a) st)).counter.in_ = _
    rw [e3, p3]
  · show (edges.foldl (edgeStep a) (rest.foldl (pairStep a) st)).counter.out = _
    rw [e4, p4]
  · show (edges.foldl (edgeStep a) (rest.foldl (pairStep a) st)).counter.through = _
    rw [e5, p5, p1]
  · show (edges.foldl (edgeStep a) (rest.foldl (pairStep a) st)).counter.cycle = _
    rw [e6, p6, p1, p2]

/-- C1: what the code does.  In a compute call at a superstep >= 1 that does
not halt and has a pending message, the first pass of the loop of lines
219-243 erases the smallest element `a` of `in_neighbors` and adds
`[b ∈ out[a]] + [a ∈ out[b]]` to `in` and `out` for the remaining elements
`b` only; the loop header then increments the erased iterator.  At that point
the behaviour is undefined and `in`, `out` of the stored record are still the
ones stored before the call: no sum over the pairs has been stored. -/
theorem compute_in_out_not_stored (superstep : Nat) (global_val : Int) (value : Counter)
    (vertexId : Int) (edges : List Int) (pmsgs : MessageIterator)
    (hs : 1 ≤ superstep) (hg : ¬ (50 ≤ superstep ∧ global_val = 0))
    (hp : pmsgs.pending ≠ []) :
    (compute superstep global_val value vertexId edges pmsgs).undefined = true ∧
    (compute superstep global_val value vertexId edges pmsgs).value.in_ = value.in_ ∧
    (compute superstep global_val value vertexId edges pmsgs).value.out = value.out ∧
    (∃ a rest, (buildIndex pmsgs).in_neighbors = a :: rest ∧
      (detect edges (buildIndex pmsgs).in_neighbors
        { counter := { in_ := 0, out := 0, through := 0, cycle := 0 },
          in_ := (buildIndex pmsgs).in_, out := (buildIndex pmsgs).out }).1.counter.in_ =
        (rest.map (fun b =>
          ((if b ∈ (mapIndex (buildIndex pmsgs).out a).1 then 1 else 0) +
           (if a ∈ (mapIndex (buildIndex pmsgs).out b).1 then 1 else 0) : Int))).sum) := by
  rw [compute_pending _ _ _ _ _ _ hs hg hp]
  refine ⟨rfl, rfl, rfl, ?_⟩
  have hne : (buildIndex pmsgs).in_neighbors ≠ [] :=
    fun h => hp ((in_neighbors_eq_nil pmsgs).1 h)
  obtain ⟨a, rest, hl⟩ := List.exists_cons_of_ne_nil hne
  refine ⟨a, rest, hl, ?_⟩
  rw [hl, (detect_cons_counter edges a rest _).2.1]
  simp only [zero_add, mapIndex_fst]
  rfl

/-- Witness for C1: the senders 2 and 3 have announced each other as
out-neighbours; the call reaches undefined behaviour with `in` still 100. -/
theorem compute_in_out_not_stored_witness :
    (compute 1 0 ⟨100, 100, 100, 100⟩ 1 []
      (showing [⟨2, 3, OUT_NEIGHBOR⟩, ⟨3, 2, OUT_NEIGHBOR⟩])).undefined = true ∧
    (compute 1 0 ⟨100, 100, 100, 100⟩ 1 []
      (showing [⟨2, 3, OUT_NEIGHBOR⟩, ⟨3, 2, OUT_NEIGHBOR⟩])).value.in_ = 100 :=
  have h := compute_in_out_not_stored 1 0 ⟨100, 100, 100, 100⟩ 1 []
    (showing [⟨2, 3, OUT_NEIGHBOR⟩, ⟨3, 2, OUT_NEIGHBOR⟩]) (by decide) (by decide)
    (by simp [showing])
  ⟨h.1, h.2.1⟩

/-- C2: what the code does.  In a compute call at a superstep >= 1 that does
not halt and has a pending message, the loop over the out-edges (lines
235-242) has run for the smallest element `a` of `in_neighbors` only when the
loop header increments the erased iterator: `through` and `cycle` of the
local record count the out-edges for `a` alone, the behaviour is undefined
from there, and `through`, `cycle` of the stored record are still the ones
stored before the call. -/
theorem compute_through_cycle_not_stored (superstep : Nat) (global_val : Int)
    (value : Counter) (vertexId : Int) (edges : List Int) (pmsgs : MessageIterator)
    (hs : 1 ≤ superstep) (hg : ¬ (50 ≤ superstep ∧ global_val = 0))
    (hp : pmsgs.pending ≠ []) :
    (compute superstep global_val value vertexId edges pmsgs).undefined = true ∧
    (compute superstep global_val value vertexId edges pmsgs).value.through =
      value.through ∧
    (compute superstep global_val value vertexId edges pmsgs).value.cycle = value.cycle ∧
    (∃ a rest, (buildIndex pmsgs).in_neighbors = a :: rest ∧
      (detect edges (buildIndex pmsgs).in_neighbors
        { counter := { in_ := 0, out := 0, through := 0, cycle := 0 },
          in_ := (buildIndex pmsgs).in_, out := (buildIndex pmsgs).out }).1.counter.through =
        (edges.countP (fun t => decide (t ∈ (mapIndex (buildIndex pmsgs).out a).1)) : Nat) ∧
      (detect edges (buildIndex pmsgs).in_neighbors
        { counter := { in_ := 0, out := 0, through := 0, cycle := 0 },
          in_ := (buildIndex pmsgs).in_, out := (buildIndex pmsgs).out }).1.counter.cycle =
        (edges.countP (fun t => decide (t ∉ (mapIndex (buildIndex pmsgs).out a).1 ∧
          t ∈ (mapIndex (buildIndex pmsgs).in_ a).1)) : Nat)) := by
  rw [compute_pending _ _ _ _ _ _ hs hg hp]
  refine ⟨rfl, rfl, rfl, ?_⟩
  have hne : (buildIndex pmsgs).in_neighbors ≠ [] :=
    fun h => hp ((in_neighbors_eq_nil pmsgs).1 h)
  obtain ⟨a, rest, hl⟩ := List.exists_cons_of_ne_nil hne
  refine ⟨a, rest, hl, ?_, ?_⟩
  · rw [hl, (detect_cons_counter edges a rest _).2.2.2.1]
    simp only [zero_add, List.countP_map, mapIndex_fst]
    rfl
  · rw [hl, (detect_cons_counter edges a rest _).2.2.2.2]
    simp only [zero_add, List.countP_map, mapIndex_fst]
    rfl

/-- Witness for C2: the sender 2 has announced the out-neighbour 5, which is
also the target of the out-edge of the vertex; the call reaches undefined
behaviour with `through` still 100. -/
theorem compute_through_cycle_not_stored_witness :
    (compute 1 0 ⟨100, 100, 100, 100⟩ 1 [5]
      (showing [⟨2, 5, OUT_NEIGHBOR⟩])).undefined = true ∧
    (compute 1 0 ⟨100, 100, 100, 100⟩ 1 [5]
      (showing [⟨2, 5, OUT_NEIGHBOR⟩])).value.through = 100 :=
  have h := compute_through_cycle_not_stored 1 0 ⟨100, 100, 100, 100⟩ 1 [5]
    (showing [⟨2, 5, OUT_NEIGHBOR⟩]) (by decide) (by decide) (by simp [showing])
  ⟨h.1, h.2.1⟩

/-- C4: what the code does.  In a compute call at a superstep >= 1 that does
not halt and has a pending message, `accumulateAggr` (line 250) has not been
called when the loop header of line 219 increments the erased iterator: no
value has been contributed when the behaviour becomes undefined.  With no
pending message the call contributes the sum of the four absolute
differences, once. -/
theorem compute_contribution_not_reached (superstep : Nat) (global_val : Int)
    (value : Counter) (vertexId : Int) (edges : List Int) (pmsgs : MessageIterator)
    (hs : 1 ≤ superstep) (hg : ¬ (50 ≤ superstep ∧ global_val = 0)) :
    (pmsgs.pending ≠ [] →
      (compute superstep global_val value vertexId edges pmsgs).undefined = true ∧
      (compute superstep global_val value vertexId edges pmsgs).aggr = []) ∧
    (pmsgs.pending = [] →
      (compute superstep global_val value vertexId edges pmsgs).undefined = false ∧
      (compute superstep global_val value vertexId edges pmsgs).aggr =
        [|value.in_ - 0| + |value.out - 0| + |value.through - 0| + |value.cycle - 0|]) := by
  refine ⟨fun hp => ?_, fun hp => ?_⟩
  · rw [compute_pending _ _ _ _ _ _ hs hg hp]
    exact ⟨rfl, rfl⟩
  · rw [compute_no_pending _ _ _ _ _ _ hs hg hp]
    exact ⟨rfl, rfl⟩

/-- Witness for C4: from the stored record 100, 100, 100, 100, one pending
message: nothing is contributed; no pending message: 400 is contributed. -/
theorem compute_contribution_not_reached_witness :
    (compute 1 0 ⟨100, 100, 100, 100⟩ 1 [2] (showing [⟨2, 1, OUT_NEIGHBOR⟩])).aggr = [] ∧
    (compute 1 0 ⟨100, 100, 100, 100⟩ 1 [2] noMessages).aggr = [400] :=
  ⟨((compute_contribution_not_reached 1 0 ⟨100, 100, 100, 100⟩ 1 [2]
      (showing [⟨2, 1, OUT_NEIGHBOR⟩]) (by decide) (by decide)).1 (by simp [showing])).2,
   by decide⟩

/-- C9: what the code does.  In a compute call at a superstep >= 1 that does
not halt and has a pending message, the send loops of lines 260-275 have not
been reached when the loop header of line 219 increments the erased iterator:
no message has been sent or delivered when the behaviour becomes undefined.
With no pending message the call sends one `OUT_NEIGHBOR` message per
out-edge and no `IN_NEIGHBOR` message. -/
theorem compute_sends_not_reached (superstep : Nat) (global_val : Int)
    (value : Counter) (vertexId : Int) (edges : List Int) (pmsgs : MessageIterator)
    (hs : 1 ≤ superstep) (hg : ¬ (50 ≤ superstep ∧ global_val = 0)) :
    (pmsgs.pending ≠ [] →
      (compute superstep global_val value vertexId edges pmsgs).undefined = true ∧
      (compute superstep global_val value vertexId edges pmsgs).sent = [] ∧
      deliveries edges (compute superstep global_val value vertexId edges pmsgs).sent = []) ∧
    (pmsgs.pending = [] →
      (compute superstep global_val value vertexId edges pmsgs).undefined = false ∧
      (compute superstep global_val value vertexId edges pmsgs).sent =
        edges.map (fun t => { vid := vertexId, neighbor := t, type := OUT_NEIGHBOR })) := by
  refine ⟨fun hp => ?_, fun hp => ?_⟩
  · rw [compute_pending _ _ _ _ _ _ hs hg hp]
    exact ⟨rfl, rfl, rfl⟩
  · rw [compute_no_pending _ _ _ _ _ _ hs hg hp]
    exact ⟨rfl, rfl⟩

/-- Witness for C9: one pending message, one out-edge: nothing is sent. -/
theorem compute_sends_not_reached_witness :
    (compute 1 0 ⟨100, 100, 100, 100⟩ 1 [2] (showing [⟨2, 1, OUT_NEIGHBOR⟩])).sent = [] :=
  ((compute_sends_not_reached 1 0 ⟨100, 100, 100, 100⟩ 1 [2]
      (showing [⟨2, 1, OUT_NEIGHBOR⟩]) (by decide) (by decide)).1 (by simp [showing])).2.1

/-! ## What the message loop reads -/

theorem buildIndex_congr (pmsgs pmsgs' : MessageIterator)
    (hl : pmsgs'.pending.length = pmsgs.pending.length) (hv : pmsgs'.view = pmsgs.view) :
    buildIndex pmsgs' = buildIndex pmsgs := by
  simp only [buildIndex, MessageIterator.reads, hl, hv]

/-- C7: what the code does.  The index is built from the records the pointer
`pm` of line 193 points at, that is from the iterator object, one record per
pending message: for every id `x`, `in[x]` holds the `neighbor` fields of
those records with `vid = x` and `type = IN_NEIGHBOR`, `out[x]` those with
`vid = x` and `type = OUT_NEIGHBOR`, and `in_neighbors` holds their `vid`
fields.  The origin, neighbor and role of the pending messages are never
read: another sequence of pending messages of the same length gives the same
index. -/
theorem index_built_from_view (pmsgs : MessageIterator) (x : Int) :
    (∀ n, n ∈ (mapIndex (buildIndex pmsgs).in_ x).1 ↔
      ∃ i, i < pmsgs.pending.length ∧ (pmsgs.view i).vid = x ∧
        (pmsgs.view i).type = IN_NEIGHBOR ∧ (pmsgs.view i).neighbor = n) ∧
    (∀ n, n ∈ (mapIndex (buildIndex pmsgs).out x).1 ↔
      ∃ i, i < pmsgs.pending.length ∧ (pmsgs.view i).vid = x ∧
        (pmsgs.view i).type = OUT_NEIGHBOR ∧ (pmsgs.view i).neighbor = n) ∧
    (x ∈ (buildIndex pmsgs).in_neighbors ↔
      ∃ i, i < pmsgs.pending.length ∧ (pmsgs.view i).vid = x) ∧
    (∀ msgs : List MyMsg, msgs.length = pmsgs.pending.length →
      buildIndex { pending := msgs, view := pmsgs.view } = buildIndex pmsgs) := by
  simp only [mapIndex_fst]
  refine ⟨?_, ?_, ?_, ?_⟩
  · intro n
    rw [buildIndex, mem_known_in]
    constructor
    · rintro ⟨m, hm, h⟩
      obtain ⟨i, hi, rfl⟩ := (mem_reads pmsgs m).1 hm
      exact ⟨i, hi, h⟩
    · rintro ⟨i, hi, h⟩
      exact ⟨pmsgs.view i, (mem_reads pmsgs _).2 ⟨i, hi, rfl⟩, h⟩
  · intro n
    rw [buildIndex, mem_known_out]
    constructor
    · rintro ⟨m, hm, h⟩
      obtain ⟨i, hi, rfl⟩ := (mem_reads pmsgs m).1 hm
      exact ⟨i, hi, h⟩
    · rintro ⟨i, hi, h⟩
      exact ⟨pmsgs.view i, (mem_reads pmsgs _).2 ⟨i, hi, rfl⟩, h⟩
  · rw [buildIndex, mem_in_neighbors]
    constructor
    · rintro ⟨m, hm, h⟩
      obtain ⟨i, hi, rfl⟩ := (mem_reads pmsgs m).1 hm
      exact ⟨i, hi, h⟩
    · rintro ⟨i, hi, h⟩
      exact ⟨pmsgs.view i, (mem_reads pmsgs _).2 ⟨i, hi, rfl⟩, h⟩
  · intro msgs hl
    exact buildIndex_congr pmsgs _ hl rfl

/-- Witness for C7: the pending message says that 5 has the out-neighbour 7;
the iterator object shows the record 4096, 1, 0; the index then has no
out-neighbour for 5, and `in_neighbors` holds 4096. -/
theorem index_built_from_view_witness :
    (mapIndex (buildIndex (fixedView [⟨5, 7, OUT_NEIGHBOR⟩] ⟨4096, 1, 0⟩)).out 5).1 = [] ∧
    (buildIndex (fixedView [⟨5, 7, OUT_NEIGHBOR⟩] ⟨4096, 1, 0⟩)).in_neighbors = [4096] ∧
    buildIndex (fixedView [⟨8, 9, IN_NEIGHBOR⟩] ⟨4096, 1, 0⟩) =
      buildIndex (fixedView [⟨5, 7, OUT_NEIGHBOR⟩] ⟨4096, 1, 0⟩) :=
  ⟨by decide, by decide,
   (index_built_from_view (fixedView [⟨5, 7, OUT_NEIGHBOR⟩] ⟨4096, 1, 0⟩) 0).2.2.2 [⟨8, 9, IN_NEIGHBOR⟩] rfl⟩

/-- C8, counterexample: one pending message with origin 5 and neighbor 7.
When the iterator object shows that message, `vids` is `{5}`; when it shows
the record 4096, 1, 0, `vids` is `{4096}`.  In neither case does `vids` hold
the `neighbor` value 7. -/
theorem vids_not_neighbor_values :
    ¬ (∀ x, x ∈ (buildIndex (showing [⟨5, 7, OUT_NEIGHBOR⟩])).vids ↔
        ∃ m ∈ (showing [⟨5, 7, OUT_NEIGHBOR⟩]).pending, m.neighbor = x) ∧
    ¬ (∀ x, x ∈ (buildIndex (fixedView [⟨5, 7, OUT_NEIGHBOR⟩] ⟨4096, 1, 0⟩)).vids ↔
        ∃ m ∈ [(⟨5, 7, OUT_NEIGHBOR⟩ : MyMsg)], m.neighbor = x) := by
  constructor
  · intro h
    have h7 := (h 7).2 ⟨⟨5, 7, OUT_NEIGHBOR⟩, by simp [showing], rfl⟩
    revert h7
    decide
  · intro h
    have h7 := (h 7).2 ⟨⟨5, 7, OUT_NEIGHBOR⟩, by simp, rfl⟩
    revert h7
    decide

/-- C8, amended: every iteration of the message loop inserts `pm->vid` into
`vids` (line 196) and never `pm->neighbor`; after the loop `vids` holds
exactly the `vid` fields of the records read through `pm`, and it is the same
set as `in_neighbors`. -/
theorem vids_vid_values (pmsgs : MessageIterator) (x : Int) :
    (x ∈ (buildIndex pmsgs).vids ↔
      ∃ i, i < pmsgs.pending.length ∧ (pmsgs.view i).vid = x) ∧
    (buildIndex pmsgs).vids = (buildIndex pmsgs).in_neighbors ∧
    (∀ (st : Index) (pm : MyMsg), (indexStep st pm).vids = setInsert pm.vid st.vids) := by
  refine ⟨?_, vids_eq_in_neighbors _, indexStep_vids⟩
  rw [buildIndex, vids_eq_in_neighbors, mem_in_neighbors]
  constructor
  · rintro ⟨m, hm, h⟩
    obtain ⟨i, hi, rfl⟩ := (mem_reads pmsgs m).1 hm
    exact ⟨i, hi, h⟩
  · rintro ⟨i, hi, h⟩
    exact ⟨pmsgs.view i, (mem_reads pmsgs _).2 ⟨i, hi, rfl⟩, h⟩

/-- Witness for C8: on `sampleIterator` every record read has `vid = 4096`. -/
theorem vids_vid_values_witness :
    (buildIndex sampleIterator).vids = [4096] ∧
    (4096 ∈ (buildIndex sampleIterator).vids ↔
      ∃ i, i < sampleIterator.pending.length ∧ (sampleIterator.view i).vid = 4096) :=
  ⟨by decide, (vids_vid_values sampleIterator 4096).1⟩

/-- C14, counterexample: the records read carry the role tag 9, which is
neither `IN_NEIGHBOR` nor `OUT_NEIGHBOR`, and then the tag `OUT_NEIGHBOR`.
The message loop does not stop at the first record: it inserts its `vid` 7
into `in_neighbors`, goes on to the second record and indexes it, and the
iterator is advanced over both messages.  At superstep 50 with global value 0
the call on the same messages votes to halt and returns without reading
them. -/
theorem unknown_role_not_fatal :
    (9 : Int) ≠ IN_NEIGHBOR ∧ (9 : Int) ≠ OUT_NEIGHBOR ∧
    (buildIndex (showing [⟨7, 7, 9⟩, ⟨5, 3, OUT_NEIGHBOR⟩])).in_neighbors = [5, 7] ∧
    (mapIndex (buildIndex (showing [⟨7, 7, 9⟩, ⟨5, 3, OUT_NEIGHBOR⟩])).out 5).1 = [3] ∧
    (compute 1 0 ⟨100, 100, 100, 100⟩ 1 [2]
      (showing [⟨7, 7, 9⟩, ⟨5, 3, OUT_NEIGHBOR⟩])).consumed =
        [⟨7, 7, 9⟩, ⟨5, 3, OUT_NEIGHBOR⟩] ∧
    compute 50 0 ⟨100, 100, 100, 100⟩ 1 [2] (showing [⟨7, 7, 9⟩, ⟨5, 3, OUT_NEIGHBOR⟩]) =
      { value := ⟨100, 100, 100, 100⟩, aggr := [], halted := true, sent := [],
        consumed := [], undefined := false } := by
  decide

/-- C14, amended: compute never checks a role tag.  On a record whose tag is
neither `IN_NEIGHBOR` nor `OUT_NEIGHBOR` an iteration of the message loop
leaves `in` and `out` unchanged, adds the `vid` of the record to
`in_neighbors` and `vids`, and the loop goes on: in a call at a superstep
>= 1 that does not halt the iterator is advanced over all pending messages.
A call that halts reads no message at all. -/
theorem unknown_role_skipped (superstep : Nat) (global_val : Int) (value : Counter)
    (vertexId : Int) (edges : List Int) (pmsgs : MessageIterator) :
    (∀ (st : Index) (pm : MyMsg), pm.type ≠ IN_NEIGHBOR → pm.type ≠ OUT_NEIGHBOR →
      indexStep st pm =
        { in_ := st.in_, out := st.out, vids := setInsert pm.vid st.vids,
          in_neighbors := setInsert pm.vid st.in_neighbors }) ∧
    (∀ l : List MyMsg, ∀ pm : MyMsg, indexFold (l ++ [pm]) = indexStep (indexFold l) pm) ∧
    (1 ≤ superstep → ¬ (50 ≤ superstep ∧ global_val = 0) →
      (compute superstep global_val value vertexId edges pmsgs).consumed = pmsgs.pending) ∧
    (50 ≤ superstep → global_val = 0 →
      (compute superstep global_val value vertexId edges pmsgs).consumed = [] ∧
      (compute superstep global_val value vertexId edges pmsgs).halted = true ∧
      (compute superstep global_val value vertexId edges pmsgs).undefined = false) := by
  refine ⟨?_, indexFold_append, ?_, ?_⟩
  · intro st pm h1 h2
    simp only [indexStep, if_neg h1, if_neg h2]
  · intro hs hg
    by_cases hp : pmsgs.pending = []
    · rw [compute_no_pending _ _ _ _ _ _ hs hg hp, hp]
    · rw [compute_pending _ _ _ _ _ _ hs hg hp]
  · intro hs hg
    subst hg
    rw [compute_halting _ _ _ _ _ hs]
    exact ⟨rfl, rfl, rfl⟩

/-- Witness for C14: the last record of `sampleMsgs` has the tag 9; the call
at superstep 1 on the iterator that shows these records advances over all six
messages. -/
theorem unknown_role_skipped_witness :
    (compute 1 0 {} 1 [2, 3] (showing sampleMsgs)).consumed = sampleMsgs ∧
    (7 : Int) ∈ (buildIndex (showing sampleMsgs)).in_neighbors :=
  ⟨(unknown_role_skipped 1 0 {} 1 [2, 3] (showing sampleMsgs)).2.2.1 (by decide) (by decide),
   by decide⟩

theorem mem_deliveries (edges : List Int) (sent : List MyMsg) (t : Int) (m : MyMsg) :
    (t, m) ∈ deliveries edges sent ↔ t ∈ edges ∧ m ∈ sent := by
  simp only [deliveries, List.mem_flatMap, List.mem_map, Prod.mk.injEq]
  constructor
  · rintro ⟨m', hm', t', ht', rfl, rfl⟩
    exact ⟨ht', hm'⟩
  · rintro ⟨ht, hm⟩
    exact ⟨m, hm, t, ht, rfl, rfl⟩

theorem run_one (graph : List (Int × List Int)) (views : Nat → Int → Nat → MyMsg) :
    run graph views 1 =
      some { superstep := 1, global := 0, vertices := afterZero graph } := by
  have houts : (initial graph).vertices.map
        (fun v => (v, runVertex 0 0 (views 0 v.id) v)) =
      (initial graph).vertices.map (fun v => (v,
        ({ value := ⟨100, 100, 100, 100⟩, aggr := [], halted := false,
           sent := outMsgs v.id v.edges, consumed := [] } : Outcome))) := by
    apply List.map_congr_left
    intro v hv
    simp only [initial, List.mem_map] at hv
    obtain ⟨e, -, rfl⟩ := hv
    simp [runVertex, compute, inMsgs]
  have h0 : (initial graph).superstep = 0 := rfl
  have hg : (initial graph).global = 0 := rfl
  simp only [run, Option.bind, superstepRun, h0, hg, houts]
  simp [List.flatMap, List.map_map, Function.comp_def, afterZero, firstInbox, initial]
  rintro _ _ _ _ - - rfl
  rfl

theorem firstInbox_ne_nil (graph : List (Int × List Int)) (u : Int × List Int)
    (hu : u ∈ graph) (id : Int) (hid : id ∈ u.2) : firstInbox graph id ≠ [] := by
  have hm : (⟨u.1, id, OUT_NEIGHBOR⟩ : MyMsg) ∈ firstInbox graph id := by
    simp only [firstInbox, List.mem_map, List.mem_filter, List.mem_flatMap,
      decide_eq_true_eq]
    refine ⟨(id, ⟨u.1, id, OUT_NEIGHBOR⟩), ⟨⟨u, hu, ?_⟩, rfl⟩, rfl⟩
    rw [mem_deliveries]
    exact ⟨hid, by simp only [outMsgs, List.mem_map]; exact ⟨id, hid, rfl⟩⟩
  intro h
  rw [h] at hm
  exact absurd hm (List.not_mem_nil _)

theorem superstepRun_pending (views : Int → Nat → MyMsg) (st : RunState)
    (hs : 1 ≤ st.superstep) (hg : ¬ (st.superstep ≥ 50 ∧ st.global = 0))
    (v : VertexState) (hv : v ∈ st.vertices) (hi : v.inbox ≠ []) :
    superstepRun views st = none := by
  have hu : (runVertex st.superstep st.global (views v.id) v).undefined = true := by
    have hne : v.inbox.isEmpty = false := by
      cases h : v.inbox with
      | nil => exact absurd h hi
      | cons _ _ => rfl
    simp only [runVertex, hne, Bool.not_false, Bool.or_true, if_true]
    rw [compute_pending _ _ _ _ _ _ hs hg hi]
  have hany : (st.vertices.map
      (fun v => (v, runVertex st.superstep st.global (views v.id) v))).any
        (fun p => p.2.undefined) = true := by
    rw [List.any_eq_true]
    exact ⟨(v, runVertex st.superstep st.global (views v.id) v),
      List.mem_map_of_mem _ hv, hu⟩
  simp only [superstepRun, hany, if_true]

theorem run_none_of_le (graph : List (Int × List Int)) (views : Nat → Int → Nat → MyMsg)
    (m : Nat) (hm : run graph views m = none) (n : Nat) (hn : m ≤ n) :
    run graph views n = none := by
  induction n with
  | zero =>
    have : m = 0 := by omega
    subst this
    exact hm
  | succ k ih =>
    by_cases hk : m = k + 1
    · subst hk; exact hm
    · simp only [run, ih (by omega), Option.bind]

theorem run_two (graph : List (Int × List Int)) (views : Nat → Int → Nat → MyMsg)
    (u v : Int × List Int) (hu : u ∈ graph) (hv : v ∈ graph) (he : v.1 ∈ u.2) :
    run graph views 2 = none := by
  have h : run graph views 2 = (run graph views 1).bind (superstepRun (views 1)) := rfl
  rw [h, run_one]
  simp only [Option.bind]
  apply superstepRun_pending (views 1) _ (le_refl 1) (by simp)
    { id := v.1, edges := v.2, value := ⟨100, 100, 100, 100⟩, active := true,
      inbox := firstInbox graph v.1 }
  · exact List.mem_map_of_mem _ hv
  · exact firstInbox_ne_nil graph u hu v.1 he

/-- C18: what the code does.  In the synchronous run on a graph in which some
vertex has an out-edge to a vertex of the graph, superstep 0 completes; at
superstep 1 the target of that edge has a pending message, so its compute
call reaches the increment of the erased iterator (line 219).  From there on
the run has no defined state: no record of superstep 2 is stored and no
superstep 50 is reached. -/
theorem run_undefined_from_superstep_one (graph : List (Int × List Int))
    (views : Nat → Int → Nat → MyMsg) (u v : Int × List Int)
    (hu : u ∈ graph) (hv : v ∈ graph) (he : v.1 ∈ u.2) :
    run graph views 1 =
      some { superstep := 1, global := 0, vertices := afterZero graph } ∧
    (∃ w ∈ afterZero graph, w.id = v.1 ∧ w.inbox ≠ [] ∧
      (runVertex 1 0 (views 1 w.id) w).undefined = true) ∧
    (∀ n, 2 ≤ n → run graph views n = none) := by
  refine ⟨run_one graph views, ?_, ?_⟩
  · have hi := firstInbox_ne_nil graph u hu v.1 he
    have hw := List.mem_map_of_mem (fun e : Int × List Int =>
      ({ id := e.1, edges := e.2, value := ⟨100, 100, 100, 100⟩, active := true,
         inbox := firstInbox graph e.1 } : VertexState)) hv
    refine ⟨_, hw, rfl, hi, ?_⟩
    simp only [runVertex, Bool.true_or, if_true]
    rw [compute_pending _ _ _ _ _ _ (le_refl 1) (by simp) hi]
  · intro n hn
    exact run_none_of_le graph views 2 (run_two graph views u v hu hv he) n hn

/-- Witness for C18: the graph with the single edge 1 → 2; whatever the
iterator objects show, the run has no state after 50 supersteps. -/
theorem run_undefined_from_superstep_one_witness :
    run [(1, [2]), (2, [])] (fun _ _ _ => ⟨0, 0, 0⟩) 50 = none :=
  (run_undefined_from_superstep_one [(1, [2]), (2, [])] (fun _ _ _ => ⟨0, 0, 0⟩)
    (1, [2]) (2, []) (by simp) (by simp) (by simp)).2.2 50 (by decide)
/-! ## The runs on the two-vertex cycle and on the four-vertex cycle -/

theorem single_pending_counters (edges : List Int) (pmsgs : MessageIterator)
    (h : pmsgs.pending.length = 1) :
    (buildIndex pmsgs).in_neighbors = [(pmsgs.view 0).vid] ∧
    (localCounter edges pmsgs).in_ = 0 ∧ (localCounter edges pmsgs).out = 0 := by
  have hr : List.range 1 = [0] := rfl
  have hin : (buildIndex pmsgs).in_neighbors = [(pmsgs.view 0).vid] := by
    simp [buildIndex, MessageIterator.reads, h, hr, indexFold, indexStep_in_neighbors,
      setInsert]
  refine ⟨hin, ?_, ?_⟩
  · unfold localCounter
    rw [hin, (detect_cons_counter edges _ [] _).2.1]
    simp
  · unfold localCounter
    rw [hin, (detect_cons_counter edges _ [] _).2.2.1]
    simp

theorem announcement_counters (p v t : Int) (htv : t ≠ v) :
    localCounter [t] (showing [⟨p, v, OUT_NEIGHBOR⟩]) = ⟨0, 0, 0, 0⟩ := by
  have htp : ¬ t = v := htv
  have h12 : ¬ OUT_NEIGHBOR = IN_NEIGHBOR := by decide
  have hr : List.range 1 = [0] := rfl
  simp [localCounter, showing, buildIndex, MessageIterator.reads, hr, indexFold, indexStep,
    h12, mapFind, mapInsert, setInsert, detect, edgeStep, mapIndex, setFind, htp]

theorem afterZero_twoCycle (a b : Int) (hab : a ≠ b) :
    afterZero (twoCycle a b) =
      [{ id := a, edges := [b], value := ⟨100, 100, 100, 100⟩, active := true,
         inbox := [⟨b, a, OUT_NEIGHBOR⟩] },
       { id := b, edges := [a], value := ⟨100, 100, 100, 100⟩, active := true,
         inbox := [⟨a, b, OUT_NEIGHBOR⟩] }] := by
  have hba : ¬ b = a := fun h => hab h.symm
  simp [afterZero, twoCycle, firstInbox, deliveries, outMsgs, hab, hba]

theorem afterZero_fourCycle (a b c d : Int) (hab : a ≠ b) (hac : a ≠ c) (had : a ≠ d)
    (hbc : b ≠ c) (hbd : b ≠ d) (hcd : c ≠ d) :
    afterZero (fourCycle a b c d) =
      [{ id := a, edges := [b], value := ⟨100, 100, 100, 100⟩, active := true,
         inbox := [⟨d, a, OUT_NEIGHBOR⟩] },
       { id := b, edges := [c], value := ⟨100, 100, 100, 100⟩, active := true,
         inbox := [⟨a, b, OUT_NEIGHBOR⟩] },
       { id := c, edges := [d], value := ⟨100, 100, 100, 100⟩, active := true,
         inbox := [⟨b, c, OUT_NEIGHBOR⟩] },
       { id := d, edges := [a], value := ⟨100, 100, 100, 100⟩, active := true,
         inbox := [⟨c, d, OUT_NEIGHBOR⟩] }] := by
  have hba := hab.symm
  have hca := hac.symm
  have hda := had.symm
  have hcb := hbc.symm
  have hdb := hbd.symm
  have hdc := hcd.symm
  simp [afterZero, fourCycle, firstInbox, deliveries, outMsgs,
    hab, hac, had, hbc, hbd, hcd, hba, hca, hda, hcb, hdb, hdc]

/-- C10, counterexample: on the graph with the vertices 1, 2 and the edges
1 → 2, 2 → 1, whatever the iterator objects show, the run has no defined state
from superstep 2 on, and in no state of the run do both vertices store
`in = 2`, `out = 2`, `through = 0`, `cycle = 0`: before superstep 0 they store
zeros, after superstep 0 the sentinel 100, and the calls of superstep 1 reach
the increment of the erased iterator; the local record of such a call has
`in = 0` and `out = 0` at that point. -/
theorem twoCycle_never_stores_two :
    (∀ views n, 2 ≤ n → run (twoCycle 1 2) views n = none) ∧
    (¬ ∃ views n st, run (twoCycle 1 2) views n = some st ∧
      ∀ v ∈ st.vertices,
        v.value.in_ = 2 ∧ v.value.out = 2 ∧ v.value.through = 0 ∧ v.value.cycle = 0) ∧
    localCounter [2] (showing [⟨2, 1, OUT_NEIGHBOR⟩]) = ⟨0, 0, 0, 0⟩ ∧
    localCounter [1] (showing [⟨1, 2, OUT_NEIGHBOR⟩]) = ⟨0, 0, 0, 0⟩ := by
  have hnone : ∀ views n, 2 ≤ n → run (twoCycle 1 2) views n = none := by
    intro views n hn
    exact run_none_of_le _ views 2
      (run_two _ views (1, [2]) (2, [1]) (by simp [twoCycle]) (by simp [twoCycle])
        (by simp)) n hn
  refine ⟨hnone, ?_, by decide, by decide⟩
  rintro ⟨views, n, st, hrun, hall⟩
  by_cases hn : 2 ≤ n
  · rw [hnone views n hn] at hrun
    exact absurd hrun (by simp)
  · have h01 : n = 0 ∨ n = 1 := by omega
    rcases h01 with rfl | rfl
    · simp only [run, Option.some.injEq] at hrun
      subst hrun
      have := (hall _ (List.mem_cons_self _ _)).1
      simp at this
    · rw [run_one, afterZero_twoCycle 1 2 (by decide)] at hrun
      simp only [Option.some.injEq] at hrun
      subst hrun
      have := (hall _ (List.mem_cons_self _ _)).1
      simp at this

/-- C10, amended: in the synchronous run on the two-vertex graph with the
edges a → b and b → a, after superstep 0 both vertices store the sentinel
100, 100, 100, 100 and each has exactly one pending message, the
`OUT_NEIGHBOR` announcement of the other vertex.  In a compute call with one
pending message `in_neighbors` has exactly one element, whatever the iterator
object shows, so the loop of lines 219-233 finds no pair and the local record
has `in = 0` and `out = 0`; when the record read is the pending announcement,
the local record of either vertex is 0, 0, 0, 0. -/
theorem twoCycle_first_supersteps (a b : Int) (hab : a ≠ b)
    (views : Nat → Int → Nat → MyMsg) :
    run (twoCycle a b) views 1 =
      some { superstep := 1, global := 0,
             vertices :=
               [{ id := a, edges := [b], value := ⟨100, 100, 100, 100⟩, active := true,
                  inbox := [⟨b, a, OUT_NEIGHBOR⟩] },
                { id := b, edges := [a], value := ⟨100, 100, 100, 100⟩, active := true,
                  inbox := [⟨a, b, OUT_NEIGHBOR⟩] }] } ∧
    (∀ (edges : List Int) (pmsgs : MessageIterator), pmsgs.pending.length = 1 →
      (buildIndex pmsgs).in_neighbors.length = 1 ∧
      (localCounter edges pmsgs).in_ = 0 ∧ (localCounter edges pmsgs).out = 0) ∧
    (∀ w ∈ afterZero (twoCycle a b),
      localCounter w.edges (showing w.inbox) = ⟨0, 0, 0, 0⟩) := by
  refine ⟨?_, ?_, ?_⟩
  · rw [run_one, afterZero_twoCycle a b hab]
  · intro edges pmsgs h
    obtain ⟨h1, h2, h3⟩ := single_pending_counters edges pmsgs h
    exact ⟨by rw [h1]; rfl, h2, h3⟩
  · intro w hw
    rw [afterZero_twoCycle a b hab] at hw
    simp only [List.mem_cons, List.mem_singleton, List.not_mem_nil, or_false] at hw
    rcases hw with rfl | rfl
    · exact announcement_counters b a b (fun h => hab h.symm)
    · exact announcement_counters a b a hab

/-- Witness for C10: the run on the vertices 1 and 2. -/
theorem twoCycle_first_supersteps_witness :
    run (twoCycle 1 2) (fun _ _ _ => ⟨0, 0, 0⟩) 1 =
      some { superstep := 1, global := 0,
             vertices :=
               [{ id := 1, edges := [2], value := ⟨100, 100, 100, 100⟩, active := true,
                  inbox := [⟨2, 1, OUT_NEIGHBOR⟩] },
                { id := 2, edges := [1], value := ⟨100, 100, 100, 100⟩, active := true,
                  inbox := [⟨1, 2, OUT_NEIGHBOR⟩] }] } ∧
    (localCounter [2] (fixedView [⟨2, 1, OUT_NEIGHBOR⟩] ⟨4096, 1, 0⟩)).in_ = 0 :=
  ⟨(twoCycle_first_supersteps 1 2 (by decide) (fun _ _ _ => ⟨0, 0, 0⟩)).1,
   ((twoCycle_first_supersteps 1 2 (by decide) (fun _ _ _ => ⟨0, 0, 0⟩)).2.1 [2]
      (fixedView [⟨2, 1, OUT_NEIGHBOR⟩] ⟨4096, 1, 0⟩) rfl).2.1⟩

/-- C11, counterexample: on the cycle 1 → 2 → 3 → 4 → 1, whatever the
iterator objects show, the run has no defined state from superstep 2 on, and
in no state of the run does every vertex store a nonzero `cycle` together
with `in = 0`, `out = 0`, `through = 0`: before superstep 0 `cycle` is 0,
after superstep 0 the four counters are the sentinel 100, and the calls of
superstep 1 reach the increment of the erased iterator; the local record of
such a call has `cycle = 0` at that point when the record read is the pending
announcement. -/
theorem fourCycle_never_cycle :
    (∀ views n, 2 ≤ n → run (fourCycle 1 2 3 4) views n = none) ∧
    (¬ ∃ views n st, run (fourCycle 1 2 3 4) views n = some st ∧
      ∀ v ∈ st.vertices,
        v.value.cycle ≠ 0 ∧ v.value.in_ = 0 ∧ v.value.out = 0 ∧ v.value.through = 0) ∧
    (localCounter [2] (showing [⟨4, 1, OUT_NEIGHBOR⟩])).cycle = 0 ∧
    (localCounter [3] (showing [⟨1, 2, OUT_NEIGHBOR⟩])).cycle = 0 ∧
    (localCounter [4] (showing [⟨2, 3, OUT_NEIGHBOR⟩])).cycle = 0 ∧
    (localCounter [1] (showing [⟨3, 4, OUT_NEIGHBOR⟩])).cycle = 0 := by
  have hnone : ∀ views n, 2 ≤ n → run (fourCycle 1 2 3 4) views n = none := by
    intro views n hn
    exact run_none_of_le _ views 2
      (run_two _ views (1, [2]) (2, [3]) (by simp [fourCycle]) (by simp [fourCycle])
        (by simp)) n hn
  refine ⟨hnone, ?_, by decide, by decide, by decide, by decide⟩
  rintro ⟨views, n, st, hrun, hall⟩
  by_cases hn : 2 ≤ n
  · rw [hnone views n hn] at hrun
    exact absurd hrun (by simp)
  · have h01 : n = 0 ∨ n = 1 := by omega
    rcases h01 with rfl | rfl
    · simp only [run, Option.some.injEq] at hrun
      subst hrun
      have := (hall _ (List.mem_cons_self _ _)).1
      simp [initial, fourCycle] at this
    · rw [run_one, afterZero_fourCycle 1 2 3 4 (by decide) (by decide) (by decide)
        (by decide) (by decide) (by decide)] at hrun
      simp only [Option.some.injEq] at hrun
      subst hrun
      have := (hall _ (List.mem_cons_self _ _)).2.1
      simp at this

/-- C11, amended: in the synchronous run on the directed cycle
a → b → c → d → a of four distinct vertices, after superstep 0 each vertex
stores the sentinel 100, 100, 100, 100 and has exactly one pending message,
the `OUT_NEIGHBOR` announcement of its predecessor.  In a compute call with
one pending message `in_neighbors` has exactly one element, whatever the
iterator object shows, so the loop of lines 219-233 finds no pair and the
local record has `in = 0` and `out = 0`; when the record read is the pending
announcement, the local record of each of the four vertices is 0, 0, 0, 0, so
its `cycle` is zero. -/
theorem fourCycle_first_supersteps (a b c d : Int) (hab : a ≠ b) (hac : a ≠ c)
    (had : a ≠ d) (hbc : b ≠ c) (hbd : b ≠ d) (hcd : c ≠ d)
    (views : Nat → Int → Nat → MyMsg) :
    run (fourCycle a b c d) views 1 =
      some { superstep := 1, global := 0,
             vertices :=
               [{ id := a, edges := [b], value := ⟨100, 100, 100, 100⟩, active := true,
                  inbox := [⟨d, a, OUT_NEIGHBOR⟩] },
                { id := b, edges := [c], value := ⟨100, 100, 100, 100⟩, active := true,
                  inbox := [⟨a, b, OUT_NEIGHBOR⟩] },
                { id := c, edges := [d], value := ⟨100, 100, 100, 100⟩, active := true,
                  inbox := [⟨b, c, OUT_NEIGHBOR⟩] },
                { id := d, edges := [a], value := ⟨100, 100, 100, 100⟩, active := true,
                  inbox := [⟨c, d, OUT_NEIGHBOR⟩] }] } ∧
    (∀ (edges : List Int) (pmsgs : MessageIterator), pmsgs.pending.length = 1 →
      (buildIndex pmsgs).in_neighbors.length = 1 ∧
      (localCounter edges pmsgs).in_ = 0 ∧ (localCounter edges pmsgs).out = 0) ∧
    (∀ w ∈ afterZero (fourCycle a b c d),
      localCounter w.edges (showing w.inbox) = ⟨0, 0, 0, 0⟩) := by
  refine ⟨?_, ?_, ?_⟩
  · rw [run_one, afterZero_fourCycle a b c d hab hac had hbc hbd hcd]
  · intro edges pmsgs h
    obtain ⟨h1, h2, h3⟩ := single_pending_counters edges pmsgs h
    exact ⟨by rw [h1]; rfl, h2, h3⟩
  · intro w hw
    rw [afterZero_fourCycle a b c d hab hac had hbc hbd hcd] at hw
    simp only [List.mem_cons, List.mem_singleton, List.not_mem_nil, or_false] at hw
    rcases hw with rfl | rfl | rfl | rfl
    · exact announcement_counters d a b (fun h => hab h.symm)
    · exact announcement_counters a b c (fun h => hbc h.symm)
    · exact announcement_counters b c d (fun h => hcd h.symm)
    · exact announcement_counters c d a had

/-- Witness for C11: the run on the vertices 1, 2, 3, 4. -/
theorem fourCycle_first_supersteps_witness :
    run (fourCycle 1 2 3 4) (fun _ _ _ => ⟨0, 0, 0⟩) 1 =
      some { superstep := 1, global := 0,
             vertices :=
               [{ id := 1, edges := [2], value := ⟨100, 100, 100, 100⟩, active := true,
                  inbox := [⟨4, 1, OUT_NEIGHBOR⟩] },
                { id := 2, edges := [3], value := ⟨100, 100, 100, 100⟩, active := true,
                  inbox := [⟨1, 2, OUT_NEIGHBOR⟩] },
                { id := 3, edges := [4], value := ⟨100, 100, 100, 100⟩, active := true,
                  inbox := [⟨2, 3, OUT_NEIGHBOR⟩] },
                { id := 4, edges := [1], value := ⟨100, 100, 100, 100⟩, active := true,
                  inbox := [⟨3, 4, OUT_NEIGHBOR⟩] }] } ∧
    (localCounter [2] (fixedView [⟨4, 1, OUT_NEIGHBOR⟩] ⟨4096, 1, 0⟩)).in_ = 0 :=
  ⟨(fourCycle_first_supersteps 1 2 3 4 (by decide) (by decide) (by decide) (by decide)
      (by decide) (by decide) (fun _ _ _ => ⟨0, 0, 0⟩)).1,
   ((fourCycle_first_supersteps 1 2 3 4 (by decide) (by decide) (by decide) (by decide)
      (by decide) (by decide) (fun _ _ _ => ⟨0, 0, 0⟩)).2.1 [2]
      (fixedView [⟨4, 1, OUT_NEIGHBOR⟩] ⟨4096, 1, 0⟩) rfl).2.1⟩


/-! ## The aggregator and the input formatter -/

theorem foldl_accumulate (a : Aggregator) (xs : List Int) :
    xs.foldl Aggregator.accumulate a =
      { m_global := a.m_global, m_local := a.m_local + xs.sum } := by
  induction xs generalizing a with
  | nil => simp
  | cons x rest ih =>
    simp only [List.foldl_cons, ih, Aggregator.accumulate, List.sum_cons, add_assoc]

theorem foldl_merge (a : Aggregator) (ps : List Int) :
    ps.foldl Aggregator.merge a =
      { m_global := a.m_global + ps.sum, m_local := a.m_local } := by
  induction ps generalizing a with
  | nil => simp
  | cons p rest ih =>
    simp only [List.foldl_cons, ih, Aggregator.merge, List.sum_cons, add_assoc]

/-- C15: the aggregator is an integer sum.  After `init` the global and the
local value are 0; after `init` and `accumulate(x1), ..., accumulate(xn)` the
local value is `x1 + ... + xn` and the global value is still 0; after `init`
and `merge(p1), ..., merge(pk)` the global value is `p1 + ... + pk` and the
local value is still 0; and merging the partials in any other order gives the
same global value. -/
theorem aggregator_sum (a : Aggregator) (xs ps : List Int) :
    a.init.getGlobal = 0 ∧ a.init.getLocal = 0 ∧
    (xs.foldl Aggregator.accumulate a.init).getLocal = xs.sum ∧
    (xs.foldl Aggregator.accumulate a.init).getGlobal = a.init.getGlobal ∧
    (ps.foldl Aggregator.merge a.init).getGlobal = ps.sum ∧
    (ps.foldl Aggregator.merge a.init).getLocal = a.init.getLocal ∧
    (∀ qs : List Int, ps.Perm qs →
      (qs.foldl Aggregator.merge a.init).getGlobal =
        (ps.foldl Aggregator.merge a.init).getGlobal) := by
  refine ⟨rfl, rfl, ?_, ?_, ?_, ?_, ?_⟩
  · simp [foldl_accumulate, Aggregator.getLocal, Aggregator.init]
  · simp [foldl_accumulate, Aggregator.getGlobal, Aggregator.init]
  · simp [foldl_merge, Aggregator.getGlobal, Aggregator.init]
  · simp [foldl_merge, Aggregator.getLocal, Aggregator.init]
  · intro qs hq
    simp only [foldl_merge, Aggregator.getGlobal, Aggregator.init, zero_add]
    exact hq.symm.sum_eq

/-- Witness for C15: the partials 5, -2, 7 merged in two orders. -/
theorem aggregator_sum_witness :
    (([7, 5, -2] : List Int).foldl Aggregator.merge (Aggregator.init ⟨3, 4⟩)).getGlobal =
      (([5, -2, 7] : List Int).foldl Aggregator.merge (Aggregator.init ⟨3, 4⟩)).getGlobal :=
  (aggregator_sum ⟨3, 4⟩ [] [5, -2, 7]).2.2.2.2.2.2 [7, 5, -2] (by decide)

/-- C16: what the code does.  The three size functions all return
`sizeof(double) = 8`; the record `Counter` the vertex stores takes 32 bytes
and the record `MyMsg` it sends takes 24 bytes, so the reported vertex and
message value sizes are not the sizes of the stored and the sent data. -/
theorem reported_value_sizes :
    getVertexValueSize = 8 ∧ getEdgeValueSize = 8 ∧ getMessageValueSize = 8 ∧
    sizeof_Counter = 32 ∧ sizeof_MyMsg = 24 ∧
    getVertexValueSize ≠ sizeof_Counter ∧ getMessageValueSize ≠ sizeof_MyMsg := by
  decide

theorem loadAfter_succ (ge : Nat → Int × Int) (k : Nat) :
    loadAfter ge (k + 1) = loadStep (loadAfter ge k) (ge (k + 1)) := by
  simp only [loadAfter, List.range_succ, List.map_append, List.foldl_append, List.map_cons,
    List.map_nil, List.foldl_cons, List.foldl_nil]

theorem sources_succ (ge : Nat → Int × Int) (k : Nat) :
    sources ge (k + 1) = sources ge k ++ [(ge k).1] := by
  simp only [sources, List.range_succ, List.map_append, List.map_cons, List.map_nil]

theorem mem_sources (ge : Nat → Int × Int) (m : Nat) (x : Int) :
    x ∈ sources ge m ↔ ∃ i, i < m ∧ (ge i).1 = x := by
  simp only [sources, List.mem_map, List.mem_range]

theorem edgeCalls_append (cs ds : List Call) :
    edgeCalls (cs ++ ds) = edgeCalls cs ++ edgeCalls ds := by
  simp only [edgeCalls, List.filterMap_append]

theorem vertexCalls_append (cs ds : List Call) :
    vertexCalls (cs ++ ds) = vertexCalls cs ++ vertexCalls ds := by
  simp only [vertexCalls, List.filterMap_append]

theorem loadAfter_inv (ge : Nat → Int × Int) (n : Nat)
    (hc : ∀ i j l, i < j → j < l → l < n → (ge i).1 = (ge l).1 → (ge j).1 = (ge i).1)
    (k : Nat) (hk : k < n) :
    (loadAfter ge k).last_vertex = (ge k).1 ∧
    (loadAfter ge k).outdegree = ((sources ge (k + 1)).count (ge k).1 : Nat) ∧
    edgeCalls (loadAfter ge k).calls =
      (List.range (k + 1)).map (fun i => ((ge i).1, (ge i).2, (0 : Int))) ∧
    ((vertexCalls (loadAfter ge k).calls).map (fun c => c.1)).Nodup ∧
    (∀ id, id ∈ (vertexCalls (loadAfter ge k).calls).map (fun c => c.1) ↔
      id ∈ sources ge (k + 1) ∧ id ≠ (ge k).1) ∧
    (∀ c ∈ vertexCalls (loadAfter ge k).calls,
      c.2.1 = 1 ∧ c.2.2 = ((sources ge (k + 1)).count c.1 : Nat)) ∧
    ((vertexCalls (loadAfter ge k).calls).map (fun c => c.2.2)).sum +
      (loadAfter ge k).outdegree = (k : Int) + 1 := by
  induction k with
  | zero =>
    refine ⟨rfl, ?_, rfl, ?_, ?_, ?_, ?_⟩
    · simp [loadAfter, sources, List.range_succ]
    · simp [loadAfter, vertexCalls]
    · intro id
      constructor
      · intro h
        simp [loadAfter, vertexCalls] at h
      · rintro ⟨h1, h2⟩
        simp only [sources, List.range_succ, List.range_zero, List.nil_append, List.map_cons,
          List.map_nil, List.mem_singleton] at h1
        exact absurd h1 h2
    · intro c hc'
      simp [loadAfter, vertexCalls] at hc'
    · simp [loadAfter, vertexCalls]
  | succ k ih =>
    obtain ⟨i1, i2, i3, i4, i5, i6, i7⟩ := ih (by omega)
    rw [loadAfter_succ]
    have hsrc : sources ge (k + 1 + 1) = sources ge (k + 1) ++ [(ge (k + 1)).1] :=
      sources_succ ge (k + 1)
    have hrange : (List.range (k + 1 + 1)).map (fun i => ((ge i).1, (ge i).2, (0 : Int))) =
        (List.range (k + 1)).map (fun i => ((ge i).1, (ge i).2, (0 : Int))) ++
          [((ge (k + 1)).1, (ge (k + 1)).2, 0)] := by
      rw [List.range_succ, List.map_append]
      rfl
    by_cases hne : (ge k).1 = (ge (k + 1)).1
    · -- the record continues the run of `last_vertex`
      have hstep : loadStep (loadAfter ge k) (ge (k + 1)) =
          { last_vertex := (loadAfter ge k).last_vertex,
            outdegree := (loadAfter ge k).outdegree + 1,
            calls := (loadAfter ge k).calls ++
              [Call.addEdge (ge (k + 1)).1 (ge (k + 1)).2 0] } := by
        simp only [loadStep, i1, hne, ne_eq, not_true_eq_false, if_false]
      rw [hstep]
      have hv : vertexCalls ((loadAfter ge k).calls ++
          [Call.addEdge (ge (k + 1)).1 (ge (k + 1)).2 0]) =
            vertexCalls (loadAfter ge k).calls := by
        rw [vertexCalls_append]
        simp [vertexCalls]
      simp only [hv]
      refine ⟨i1.trans hne, ?_, ?_, i4, ?_, ?_, ?_⟩
      · rw [i2, hsrc, List.count_append, ← hne]
        simp
      · rw [edgeCalls_append, i3, hrange]
        rfl
      · intro id
        rw [i5 id, hsrc, ← hne]
        simp only [List.mem_append, List.mem_singleton]
        tauto
      · intro c hc'
        obtain ⟨h1, h2⟩ := i6 c hc'
        refine ⟨h1, ?_⟩
        have hcne : c.1 ≠ (ge k).1 :=
          ((i5 c.1).1 (List.mem_map_of_mem (fun c => c.1) hc')).2
        rw [h2, hsrc, List.count_append, ← hne]
        simp [hcne]
      · push_cast
        linarith
    · -- the record starts a new source
      have hstep : loadStep (loadAfter ge k) (ge (k + 1)) =
          { last_vertex := (ge (k + 1)).1, outdegree := 1,
            calls := (loadAfter ge k).calls ++
              [Call.addVertex (loadAfter ge k).last_vertex 1 (loadAfter ge k).outdegree,
               Call.addEdge (ge (k + 1)).1 (ge (k + 1)).2 0] } := by
        simp only [loadStep, i1, ne_eq, hne, not_false_eq_true, if_true]
      rw [hstep]
      have hv : vertexCalls ((loadAfter ge k).calls ++
          [Call.addVertex (loadAfter ge k).last_vertex 1 (loadAfter ge k).outdegree,
           Call.addEdge (ge (k + 1)).1 (ge (k + 1)).2 0]) =
            vertexCalls (loadAfter ge k).calls ++
              [((ge k).1, 1, (loadAfter ge k).outdegree)] := by
        rw [vertexCalls_append, i1]
        simp [vertexCalls]
      have hnew : (ge (k + 1)).1 ∉ sources ge (k + 1) := by
        intro hmem
        obtain ⟨i, hi, hi'⟩ := (mem_sources ge (k + 1) _).1 hmem
        by_cases hik : i = k
        · subst hik; exact hne hi'
        · have := hc i k (k + 1) (by omega) (by omega) hk hi'
          exact hne (this.trans hi')
      have hlast : (ge k).1 ∉ (vertexCalls (loadAfter ge k).calls).map (fun c => c.1) := by
        intro hmem
        exact ((i5 _).1 hmem).2 rfl
      have hkmem : (ge k).1 ∈ sources ge (k + 1) :=
        (mem_sources ge (k + 1) _).2 ⟨k, by omega, rfl⟩
      simp only [hv]
      refine ⟨by trivial, ?_, ?_, ?_, ?_, ?_, ?_⟩
      · rw [hsrc, List.count_append, List.count_eq_zero_of_not_mem hnew]
        simp
      · rw [edgeCalls_append, i3, hrange]
        rfl
      · rw [List.map_append, List.nodup_append]
        refine ⟨i4, by simp, ?_⟩
        intro a ha hb
        simp only [List.map_cons, List.map_nil, List.mem_singleton] at hb
        subst hb
        exact hlast ha
      · intro id
        rw [List.map_append, List.mem_append, i5 id, hsrc]
        simp only [List.map_cons, List.map_nil, List.mem_singleton, List.mem_append]
        constructor
        · rintro (⟨h1, -⟩ | rfl)
          · exact ⟨Or.inl h1, fun e => hnew (e ▸ h1)⟩
          · exact ⟨Or.inl hkmem, hne⟩
        · rintro ⟨h1 | h1, h2⟩
          · by_cases e : id = (ge k).1
            · exact Or.inr e
            · exact Or.inl ⟨h1, e⟩
          · exact absurd h1 h2
      · intro c hc'
        rw [List.mem_append] at hc'
        rcases hc' with hc' | hc'
        · obtain ⟨h1, h2⟩ := i6 c hc'
          refine ⟨h1, ?_⟩
          have hcmem : c.1 ∈ sources ge (k + 1) :=
            ((i5 c.1).1 (List.mem_map_of_mem (fun c => c.1) hc')).1
          have hz : List.count c.1 [(ge (k + 1)).1] = 0 :=
            List.count_eq_zero_of_not_mem
              (by simpa using fun e : c.1 = (ge (k + 1)).1 => hnew (e ▸ hcmem))
          rw [h2, hsrc, List.count_append, hz]
          simp
        · simp only [List.mem_singleton] at hc'
          subst hc'
          refine ⟨rfl, ?_⟩
          have hz : List.count (ge k).1 [(ge (k + 1)).1] = 0 :=
            List.count_eq_zero_of_not_mem (by simpa using hne)
          show (loadAfter ge k).outdegree = _
          rw [i2, hsrc, List.count_append, hz]
          simp
      · rw [List.map_append, List.sum_append]
        simp only [List.map_cons, List.map_nil, List.sum_cons, List.sum_nil, add_zero]
        push_cast
        linarith

/-- C17: `loadGraph` on an edge list of `m_total_edge` records.  When
`m_total_edge ≤ 0` it makes no call.  When `m_total_edge > 0` and the records
with the same source are contiguous, it calls `addEdge` once per record, in
input order, with weight 0, and calls `addVertex` exactly once per distinct
source, with value 1 and with the number of records of that source as
out-degree; the out-degrees sum to `m_total_edge`. -/
theorem loadGraph_calls (m_total_edge : Int) (getEdgeLine : Nat → Int × Int) :
    (m_total_edge ≤ 0 → loadGraph m_total_edge getEdgeLine = []) ∧
    (0 < m_total_edge →
      (∀ i j l, i < j → j < l → l < m_total_edge.toNat →
        (getEdgeLine i).1 = (getEdgeLine l).1 → (getEdgeLine j).1 = (getEdgeLine i).1) →
      edgeCalls (loadGraph m_total_edge getEdgeLine) =
        (List.range m_total_edge.toNat).map
          (fun i => ((getEdgeLine i).1, (getEdgeLine i).2, (0 : Int))) ∧
      ((vertexCalls (loadGraph m_total_edge getEdgeLine)).map (fun c => c.1)).Nodup ∧
      (∀ id, id ∈ (vertexCalls (loadGraph m_total_edge getEdgeLine)).map (fun c => c.1) ↔
        id ∈ sources getEdgeLine m_total_edge.toNat) ∧
      (∀ c ∈ vertexCalls (loadGraph m_total_edge getEdgeLine),
        c.2.1 = 1 ∧
        c.2.2 = ((sources getEdgeLine m_total_edge.toNat).count c.1 : Nat)) ∧
      ((vertexCalls (loadGraph m_total_edge getEdgeLine)).map (fun c => c.2.2)).sum =
        m_total_edge) := by
  refine ⟨fun h => by simp only [loadGraph, if_pos h], ?_⟩
  intro hpos hc
  obtain ⟨k, hk⟩ : ∃ k, m_total_edge.toNat = k + 1 :=
    ⟨m_total_edge.toNat - 1, by omega⟩
  have hm : m_total_edge = (k : Int) + 1 := by omega
  have hload : loadGraph m_total_edge getEdgeLine =
      (loadAfter getEdgeLine k).calls ++
        [Call.addVertex (loadAfter getEdgeLine k).last_vertex 1
          (loadAfter getEdgeLine k).outdegree] := by
    have hk' : m_total_edge.toNat - 1 = k := by omega
    simp only [loadGraph, if_neg (not_le.2 hpos), hk', loadAfter]
  obtain ⟨i1, i2, i3, i4, i5, i6, i7⟩ :=
    loadAfter_inv getEdgeLine m_total_edge.toNat hc k (by omega)
  have hv : vertexCalls (loadGraph m_total_edge getEdgeLine) =
      vertexCalls (loadAfter getEdgeLine k).calls ++
        [((getEdgeLine k).1, 1, (loadAfter getEdgeLine k).outdegree)] := by
    rw [hload, vertexCalls_append, i1]
    simp [vertexCalls]
  have he : edgeCalls (loadGraph m_total_edge getEdgeLine) =
      edgeCalls (loadAfter getEdgeLine k).calls := by
    rw [hload, edgeCalls_append]
    simp [edgeCalls]
  rw [hv, he, hk]
  refine ⟨i3, ?_, ?_, ?_, ?_⟩
  · rw [List.map_append, List.nodup_append]
    refine ⟨i4, by simp, ?_⟩
    intro a ha hb
    simp only [List.map_cons, List.map_nil, List.mem_singleton] at hb
    subst hb
    exact ((i5 _).1 ha).2 rfl
  · intro id
    rw [List.map_append, List.mem_append, i5 id]
    simp only [List.map_cons, List.map_nil, List.mem_singleton]
    constructor
    · rintro (⟨h1, -⟩ | rfl)
      · exact h1
      · exact (mem_sources getEdgeLine (k + 1) _).2 ⟨k, by omega, rfl⟩
    · intro h1
      by_cases e : id = (getEdgeLine k).1
      · exact Or.inr e
      · exact Or.inl ⟨h1, e⟩
  · intro c hc'
    rw [List.mem_append] at hc'
    rcases hc' with hc' | hc'
    · exact i6 c hc'
    · simp only [List.mem_singleton] at hc'
      subst hc'
      exact ⟨rfl, i2⟩
  · rw [List.map_append, List.sum_append]
    simp only [List.map_cons, List.map_nil, List.sum_cons, List.sum_nil, add_zero]
    rw [i7, hm]

/-- Witness for C17: the four records (1, 2), (1, 3), (2, 3), (3, 1). -/
theorem loadGraph_calls_witness :
    loadGraph 4 sampleLines =
      [Call.addEdge 1 2 0, Call.addEdge 1 3 0, Call.addVertex 1 1 2, Call.addEdge 2 3 0,
       Call.addVertex 2 1 1, Call.addEdge 3 1 0, Call.addVertex 3 1 1] ∧
    ((vertexCalls (loadGraph 4 sampleLines)).map (fun c => c.2.2)).sum = 4 :=
  ⟨by decide,
   ((loadGraph_calls 4 sampleLines).2 (by decide)
      (by
        intro i j l hij hjl hl
        have h4 : l < 4 := hl
        have : l = 2 ∨ l = 3 := by omega
        rcases this with rfl | rfl
        · have : i = 0 ∧ j = 1 := by omega
          obtain ⟨rfl, rfl⟩ := this
          decide
        · have : (i = 0 ∧ j = 1) ∨ (i = 0 ∧ j = 2) ∨ (i = 1 ∧ j = 2) := by omega
          rcases this with ⟨rfl, rfl⟩ | ⟨rfl, rfl⟩ | ⟨rfl, rfl⟩ <;> decide)).2.2.2.2⟩


end PageRankVertex
